import Mathlib

/-!
# Verification of the spiff dynaml engine against its specification

This development gives a shallow embedding of the parts of the spiff
repository (package `dynaml`, `cmd`, `spiffing`, `dynaml/wireguard`)
needed to settle the specification claims, and proves theorems about it.

The PEG grammar of `dynaml/dynaml.peg.go` is embedded as functions over
`List Char` with PEG semantics: a parser returns `some rest` (the
remaining input) on success and `none` on failure; choice is ordered,
repetition is greedy without backtracking into previous iterations, and
`!e` is a negative lookahead that consumes nothing.
-/

namespace Spiff

namespace Peg

/-- A PEG parser over character lists: `some rest` on success. -/
def Parser : Type := List Char → Option (List Char)

/-- Match one specific character. -/
def pchar (c : Char) : Parser := fun s =>
  match s with
  | d :: r => if d = c then some r else none
  | [] => none

/-- Match one character of a class (a range alternation in the grammar). -/
def pclass (p : Char → Bool) : Parser := fun s =>
  match s with
  | d :: r => if p d then some r else none
  | [] => none

/-- Match any character (the grammar's `.`; fails only at end of input). -/
def pdot : Parser := fun s =>
  match s with
  | _ :: r => some r
  | [] => none

/-- Sequencing of two PEG expressions. -/
def pseq (f g : Parser) : Parser := fun s => (f s).bind g

/-- Ordered choice: try `f`, on failure try `g` from the same position. -/
def palt (f g : Parser) : Parser := fun s =>
  match f s with
  | some r => some r
  | none => g s

/-- Optional expression `e?`: never fails. -/
def popt (f : Parser) : Parser := fun s => some ((f s).getD s)

/-- Negative lookahead `!e`: succeeds without consuming iff `f` fails. -/
def pnot (f : Parser) : Parser := fun s =>
  match f s with
  | some _ => none
  | none => some s

/-- The empty expression (always succeeds, consumes nothing). -/
def pempty : Parser := fun s => some s

/-- A literal character sequence such as `'m' 'e' 'r' 'g' 'e'`. -/
def plit : List Char → Parser
  | [], s => some s
  | c :: cs, s => pseq (pchar c) (plit cs) s

/-- Fuel-driven greedy repetition: apply `f` as long as it succeeds.
Returns the remaining input (a PEG `e*` never fails).  Every starred
expression of the dynaml grammar consumes at least one character per
successful iteration, so `fuel = length input + 1` makes this exact. -/
def pstarN (f : Parser) : Nat → List Char → List Char
  | 0, s => s
  | n + 1, s =>
    match f s with
    | none => s
    | some s' => pstarN f n s'

/-- Greedy repetition `e*` with sufficient fuel. -/
def pstar (f : Parser) (s : List Char) : List Char := pstarN f (s.length + 1) s

/-- `e*` as a parser (always succeeds). -/
def pstarP (f : Parser) : Parser := fun s => some (pstar f s)

/-- `e+` = `e e*`. -/
def pplus (f : Parser) : Parser := pseq f (pstarP f)

/-- Every successful parse of `f` strictly consumes input. -/
def Shrinks (f : Parser) : Prop := ∀ s r, f s = some r → r.length < s.length

/-- Every successful parse of `f` returns a suffix no longer than the input. -/
def NonGrow (f : Parser) : Prop := ∀ s r, f s = some r → r.length ≤ s.length

theorem Shrinks.nonGrow {f : Parser} (h : Shrinks f) : NonGrow f :=
  fun s r hr => Nat.le_of_lt (h s r hr)

theorem pclass_eq_some {p : Char → Bool} {s r : List Char}
    (h : pclass p s = some r) : ∃ c, s = c :: r ∧ p c := by
  cases s with
  | nil => simp [pclass] at h
  | cons d t =>
    simp only [pclass] at h
    by_cases hd : p d
    · rw [if_pos hd] at h
      injection h with h
      subst h
      exact ⟨d, rfl, hd⟩
    · rw [if_neg hd] at h
      cases h

theorem pchar_eq_some {c : Char} {s r : List Char}
    (h : pchar c s = some r) : s = c :: r := by
  cases s with
  | nil => simp [pchar] at h
  | cons d t =>
    simp only [pchar] at h
    by_cases hd : d = c
    · rw [if_pos hd] at h
      injection h with h
      subst h; subst hd
      rfl
    · rw [if_neg hd] at h
      cases h

theorem shrinks_pchar (c : Char) : Shrinks (pchar c) := by
  intro s r h
  rw [pchar_eq_some h]
  simp [List.length_cons]

theorem shrinks_pclass (p : Char → Bool) : Shrinks (pclass p) := by
  intro s r h
  obtain ⟨c, hs, _⟩ := pclass_eq_some h
  rw [hs]
  simp [List.length_cons]

theorem shrinks_pdot : Shrinks pdot := by
  intro s r h
  cases s with
  | nil => simp [pdot] at h
  | cons d t =>
    simp only [pdot] at h
    injection h with h
    subst h
    simp [List.length_cons]

theorem nonGrow_pseq {f g : Parser} (hf : NonGrow f) (hg : NonGrow g) :
    NonGrow (pseq f g) := by
  intro s r h
  simp only [pseq, Option.bind_eq_some] at h
  obtain ⟨m, hm, hr⟩ := h
  exact Nat.le_trans (hg m r hr) (hf s m hm)

theorem shrinks_pseq_left {f g : Parser} (hf : Shrinks f) (hg : NonGrow g) :
    Shrinks (pseq f g) := by
  intro s r h
  simp only [pseq, Option.bind_eq_some] at h
  obtain ⟨m, hm, hr⟩ := h
  exact Nat.lt_of_le_of_lt (hg m r hr) (hf s m hm)

theorem shrinks_pseq_right {f g : Parser} (hf : NonGrow f) (hg : Shrinks g) :
    Shrinks (pseq f g) := by
  intro s r h
  simp only [pseq, Option.bind_eq_some] at h
  obtain ⟨m, hm, hr⟩ := h
  exact Nat.lt_of_lt_of_le (hg m r hr) (hf s m hm)

theorem shrinks_palt {f g : Parser} (hf : Shrinks f) (hg : Shrinks g) :
    Shrinks (palt f g) := by
  intro s r h
  simp only [palt] at h
  cases hfs : f s with
  | some m => rw [hfs] at h; exact hf s r (hfs.trans h)
  | none => rw [hfs] at h; exact hg s r h

theorem nonGrow_palt {f g : Parser} (hf : NonGrow f) (hg : NonGrow g) :
    NonGrow (palt f g) := by
  intro s r h
  simp only [palt] at h
  cases hfs : f s with
  | some m => rw [hfs] at h; exact hf s r (hfs.trans h)
  | none => rw [hfs] at h; exact hg s r h

theorem nonGrow_popt {f : Parser} (hf : NonGrow f) : NonGrow (popt f) := by
  intro s r h
  simp only [popt, Option.some.injEq] at h
  cases hfs : f s with
  | some m =>
    rw [hfs] at h
    simp only [Option.getD_some] at h
    exact h ▸ hf s m hfs
  | none =>
    rw [hfs] at h
    simp only [Option.getD_none] at h
    exact h ▸ Nat.le_refl _

theorem nonGrow_pnot (f : Parser) : NonGrow (pnot f) := by
  intro s r h
  simp only [pnot] at h
  cases hfs : f s with
  | some m => rw [hfs] at h; cases h
  | none =>
    rw [hfs] at h
    injection h with h
    exact h ▸ Nat.le_refl _

theorem nonGrow_pstarN (f : Parser) (hf : NonGrow f) :
    ∀ n s, (pstarN f n s).length ≤ s.length := by
  intro n
  induction n with
  | zero => intro s; exact Nat.le_refl _
  | succ n ih =>
    intro s
    simp only [pstarN]
    cases hfs : f s with
    | none => exact Nat.le_refl _
    | some s' => exact Nat.le_trans (ih s') (hf s s' hfs)

theorem nonGrow_pstarP {f : Parser} (hf : NonGrow f) : NonGrow (pstarP f) := by
  intro s r h
  simp only [pstarP, Option.some.injEq] at h
  subst h
  exact nonGrow_pstarN f hf _ s

theorem nonGrow_plit : ∀ cs, NonGrow (plit cs) := by
  intro cs
  induction cs with
  | nil => intro s r h; simp only [plit, Option.some.injEq] at h; subst h; exact Nat.le_refl _
  | cons c cs ih =>
    intro s r h
    exact nonGrow_pseq (shrinks_pchar c).nonGrow ih s r h

theorem shrinks_plit_cons (c : Char) (cs : List Char) : Shrinks (plit (c :: cs)) :=
  shrinks_pseq_left (shrinks_pchar c) (nonGrow_plit cs)

theorem shrinks_pplus {f : Parser} (hf : Shrinks f) : Shrinks (pplus f) :=
  shrinks_pseq_left hf (nonGrow_pstarP hf.nonGrow)

/-- With enough fuel, the result of greedy repetition does not depend on the
exact fuel bound (items of the star strictly consume). -/
theorem pstarN_congr {f : Parser} (hf : Shrinks f) :
    ∀ n m s, s.length < n → s.length < m → pstarN f n s = pstarN f m s := by
  intro n
  induction n with
  | zero => intro m s h; omega
  | succ n ih =>
    intro m s hn hm
    cases m with
    | zero => omega
    | succ m =>
      simp only [pstarN]
      cases hfs : f s with
      | none => rfl
      | some s' =>
        have hs' : s'.length < s.length := hf s s' hfs
        exact ih m s' (by omega) (by omega)

theorem pstar_none {f : Parser} {s : List Char} (h : f s = none) : pstar f s = s := by
  simp [pstar, pstarN, h]

theorem pstar_step {f : Parser} (hf : Shrinks f) {s s' : List Char}
    (h : f s = some s') : pstar f s = pstar f s' := by
  have hs' : s'.length < s.length := hf s s' h
  simp only [pstar, pstarN, h]
  exact pstarN_congr hf s.length (s'.length + 1) s' hs' (Nat.lt_succ_self _)

/-- Greedy repetition of a character class is `dropWhile`. -/
theorem pstarN_pclass (p : Char → Bool) :
    ∀ n s, s.length ≤ n → pstarN (pclass p) n s = s.dropWhile p := by
  intro n
  induction n with
  | zero =>
    intro s h
    have : s = [] := List.eq_nil_of_length_eq_zero (Nat.le_zero.mp h)
    subst this; rfl
  | succ n ih =>
    intro s h
    cases s with
    | nil => rfl
    | cons c t =>
      simp only [pstarN, pclass, List.dropWhile_cons]
      by_cases hc : p c
      · simp only [hc, if_true]
        exact ih t (by simpa using Nat.le_of_succ_le_succ h)
      · simp [hc]

theorem pstar_pclass (p : Char → Bool) (s : List Char) :
    pstar (pclass p) s = s.dropWhile p :=
  pstarN_pclass p _ s (Nat.le_succ_of_le (Nat.le_refl _))

end Peg

namespace Dynaml

open Peg

/-! ## Leaf productions of the dynaml PEG grammar (`dynaml/dynaml.peg.go`)

Each definition mirrors one grammar production, quoted in its doc comment.
The non-recursive productions are defined directly; the mutually recursive
expression productions are interpreted by the fuel-driven `run` below. -/

/-- Character range `[a-z]`. -/
def isLowerAZ (c : Char) : Bool := 'a' ≤ c && c ≤ 'z'

/-- Character range `[A-Z]`. -/
def isUpperAZ (c : Char) : Bool := 'A' ≤ c && c ≤ 'Z'

/-- Character range `[0-9]`. -/
def isDigit09 (c : Char) : Bool := '0' ≤ c && c ≤ '9'

/-- The class `([a-z] / [A-Z] / [0-9] / '_')` used by `Name`, `Key` and
`TagComponent` tails. -/
def nameChar (c : Char) : Bool := isLowerAZ c || isUpperAZ c || isDigit09 c || c = '_'

/-- The class `([a-z] / [A-Z] / [0-9] / '_' / '-')` of `Key` tails. -/
def keyTailChar (c : Char) : Bool := nameChar c || c = '-'

/-- The class `([a-z] / [A-Z] / '_')` starting a `TagComponent`. -/
def tagStartChar (c : Char) : Bool := isLowerAZ c || isUpperAZ c || c = '_'

/-- The whitespace class `(' ' / '\t' / '\n' / '\r')`. -/
def wsChar (c : Char) : Bool := c = ' ' || c = '\t' || c = '\n' || c = '\r'

/-- `ws <- (' ' / '\t' / '\n' / '\r')*` -/
def ws : Parser := pstarP (pclass wsChar)

/-- `req_ws <- (' ' / '\t' / '\n' / '\r')+` -/
def req_ws : Parser := pplus (pclass wsChar)

/-- `Name <- ([a-z] / [A-Z] / [0-9] / '_')+` -/
def Name : Parser := pplus (pclass nameChar)

/-- `Key <- (([a-z] / [A-Z] / [0-9] / '_') ([a-z] / [A-Z] / [0-9] / '_' / '-')*
(':' ([a-z] / [A-Z] / [0-9] / '_') ([a-z] / [A-Z] / [0-9] / '_' / '-')*)?)` -/
def Key : Parser :=
  pseq (pclass nameChar)
    (pseq (pstarP (pclass keyTailChar))
      (popt (pseq (pchar ':')
        (pseq (pclass nameChar) (pstarP (pclass keyTailChar))))))

/-- `Index <- ('[' '-'? [0-9]+ ']')` -/
def Index : Parser :=
  pseq (pchar '[')
    (pseq (popt (pchar '-'))
      (pseq (pplus (pclass isDigit09)) (pchar ']')))

/-- `IP <- ([0-9]+ '.' [0-9]+ '.' [0-9]+ '.' [0-9]+)` -/
def IP : Parser :=
  pseq (pplus (pclass isDigit09))
    (pseq (pchar '.')
      (pseq (pplus (pclass isDigit09))
        (pseq (pchar '.')
          (pseq (pplus (pclass isDigit09))
            (pseq (pchar '.') (pplus (pclass isDigit09)))))))

/-- `PathComponent <- (('.' Key) / ('.'? Index))` -/
def PathComponent : Parser :=
  palt (pseq (pchar '.') Key) (pseq (popt (pchar '.')) Index)

/-- `FollowUpRef <- PathComponent*` -/
def FollowUpRef : Parser := pstarP PathComponent

/-- `TagComponent <- (([a-z] / [A-Z] / '_') ([a-z] / [A-Z] / [0-9] / '_')*)` -/
def TagComponent : Parser := pseq (pclass tagStartChar) (pstarP (pclass nameChar))

/-- `Tag <- (TagComponent (('.' / ':') TagComponent)*)` -/
def Tag : Parser :=
  pseq TagComponent
    (pstarP (pseq (palt (pchar '.') (pchar ':')) TagComponent))

/-- The first alternative of the `TagPrefix` production:
`('d' 'o' 'c' ('.' / ':') '-'? [0-9]+)`, a document-index reference. -/
def docRef : Parser :=
  pseq (plit ('d' :: 'o' :: 'c' :: []))
    (pseq (palt (pchar '.') (pchar ':'))
      (pseq (popt (pchar '-')) (pplus (pclass isDigit09))))

/-- `TagPrefix <- <((('d' 'o' 'c' ('.' / ':') '-'? [0-9]+) / Tag) (':' ':'))>`
(the grammar's rule 94, `TagPrefix`). -/
def TagPrefixRule : Parser :=
  pseq (palt docRef Tag) (plit (':' :: ':' :: []))

/-- `Reference <- (((TagPrefix ('.' / Key)) / ('.'? Key)) FollowUpRef)` -/
def Reference : Parser :=
  pseq
    (palt
      (pseq TagPrefixRule (palt (pchar '.') Key))
      (pseq (popt (pchar '.')) Key))
    FollowUpRef

/-- `Replace <- ('r' 'e' 'p' 'l' 'a' 'c' 'e')` -/
def Replace : Parser := plit ('r' :: 'e' :: 'p' :: 'l' :: 'a' :: 'c' :: 'e' :: [])

/-- `Required <- ('r' 'e' 'q' 'u' 'i' 'r' 'e' 'd')` -/
def Required : Parser := plit ('r' :: 'e' :: 'q' :: 'u' :: 'i' :: 'r' :: 'e' :: 'd' :: [])

/-- `On <- ('o' 'n' req_ws Name)` -/
def On : Parser := pseq (plit ('o' :: 'n' :: [])) (pseq req_ws Name)

/-- `RefMerge <- ('m' 'e' 'r' 'g' 'e' !(req_ws Required) (req_ws (Replace / On))?
req_ws Reference)` -/
def RefMerge : Parser :=
  pseq (plit ('m' :: 'e' :: 'r' :: 'g' :: 'e' :: []))
    (pseq (pnot (pseq req_ws Required))
      (pseq (popt (pseq req_ws (palt Replace On)))
        (pseq req_ws Reference)))

/-- `SimpleMerge <- ('m' 'e' 'r' 'g' 'e' !'(' (req_ws (Replace / Required / On))?)` -/
def SimpleMerge : Parser :=
  pseq (plit ('m' :: 'e' :: 'r' :: 'g' :: 'e' :: []))
    (pseq (pnot (pchar '('))
      (popt (pseq req_ws (palt Replace (palt Required On)))))

/-- `Merge <- (RefMerge / SimpleMerge)` -/
def Merge : Parser := palt RefMerge SimpleMerge

/-- `Auto <- ('a' 'u' 't' 'o')` -/
def Auto : Parser := plit ('a' :: 'u' :: 't' :: 'o' :: [])

/-- `Boolean <- (('t' 'r' 'u' 'e') / ('f' 'a' 'l' 's' 'e'))` -/
def Boolean : Parser :=
  palt (plit ('t' :: 'r' :: 'u' :: 'e' :: []))
    (plit ('f' :: 'a' :: 'l' :: 's' :: 'e' :: []))

/-- `Nil <- (('n' 'i' 'l') / '~')` -/
def Nil : Parser := palt (plit ('n' :: 'i' :: 'l' :: [])) (pchar '~')

/-- `Undefined <- ('~' '~')` -/
def Undefined : Parser := plit ('~' :: '~' :: [])

/-- `Symbol <- ('$' Name)` -/
def Symbol : Parser := pseq (pchar '$') Name

/-- `Number <- ('-'? [0-9] ([0-9] / '_')* ('.' [0-9] [0-9]*)? (('e' / 'E') '-'?
[0-9] [0-9]*)? !(':' ':'))` -/
def Number : Parser :=
  pseq (popt (pchar '-'))
    (pseq (pclass isDigit09)
      (pseq (pstarP (pclass (fun c => isDigit09 c || c = '_')))
        (pseq (popt (pseq (pchar '.') (pseq (pclass isDigit09) (pstarP (pclass isDigit09)))))
          (pseq (popt (pseq (palt (pchar 'e') (pchar 'E'))
              (pseq (popt (pchar '-')) (pseq (pclass isDigit09) (pstarP (pclass isDigit09))))))
            (pnot (plit (':' :: ':' :: [])))))))

/-- One iteration of the `String` interior: `(('\\' '"') / (!'"' .))`. -/
def stringItem : Parser :=
  palt (plit ('\\' :: '"' :: [])) (pseq (pnot (pchar '"')) pdot)

/-- `String <- ('"' (('\\' '"') / (!'"' .))* '"')` (the grammar's rule 55,
`String`, plain-mode string literals). -/
def StringRule : Parser :=
  pseq (pchar '"') (pseq (pstarP stringItem) (pchar '"'))

/-! ## The recursive part of the grammar

The mutually recursive productions (rules 0-92 of `dynaml.peg.go`) are
interpreted by a fuel-driven function `run`: each invocation of a
sub-production spends one unit of fuel, so the interpreter is total; with
enough fuel it coincides with the PEG semantics of the generated parser.
Leaf productions reuse the standalone definitions above. -/

/-- One constructor per recursive production of the grammar, named as in
`dynaml.peg.go` (rule `TagPrefix` is `TagPrefixRule` above; the `ActionN`
rules are inlined as the empty expression). -/
inductive Rule where
  | Dynaml | Prefer | MarkedExpression | SubsequentMarker | Marker | TagMarker
  | MarkerExpression | Expression | Scoped | Scope | CreateScope
  | Level7 | Or | OrOp | Level6 | Conditional | Level5 | Concatenation
  | Level4 | LogOr | LogAnd | Level3 | Comparison | CompareOp
  | Level2 | Addition | Subtraction | Level1 | Multiplication | Division | Modulo
  | Level0 | Chained | ChainedQualifiedExpression | ChainedRef | ChainedDynRef
  | TopIndex | Slice | Currying | ChainedCall | StartArguments
  | NameArgumentList | NextNameArgument | ExpressionList | NextExpression
  | ListExpansion | Projection | ProjectionValue | Substitution | Not | Grouped
  | Range | StartRange | RangeOp | List | StartList | Map | CreateMap
  | Assignments | Assignment | Default | Sync | LambdaExt | LambdaOrExpr
  | Catch | MapMapping | Mapping | MapSelection | Selection | Sum
  | Lambda | LambdaRef | LambdaExpr | Params | StartParams | Names | NextName
  | DefaultValue | VarParams
  deriving DecidableEq

/-- The fuel-driven interpreter of the recursive grammar productions; each
match arm is the transcription of the corresponding production comment in
`dynaml.peg.go`. -/
def run : Nat → Rule → Parser
  | 0, _ => fun _ => none
  | n + 1, r =>
    match r with
    | .Dynaml =>
      pseq (palt (run n .Prefer) (palt (run n .MarkedExpression) (run n .Expression)))
        (pnot pdot)
    | .Prefer =>
      pseq ws (pseq (plit ("prefer".data)) (pseq req_ws (run n .Expression)))
    | .MarkedExpression =>
      pseq ws (pseq (run n .Marker)
        (pseq (pstarP (pseq req_ws (run n .SubsequentMarker)))
          (pseq ws (pseq (popt (run n .MarkerExpression)) ws))))
    | .SubsequentMarker => run n .Marker
    | .Marker =>
      pseq (pchar '&')
        (palt (plit ("template".data)) (palt (plit ("temporary".data))
          (palt (plit ("local".data)) (palt (plit ("inject".data))
            (palt (plit ("state".data)) (palt (plit ("default".data))
              (palt (plit ("dynamic".data)) (run n .TagMarker))))))))
    | .TagMarker =>
      pseq (plit ("tag".data)) (pseq (pchar ':') (pseq (popt (pchar '*')) Tag))
    | .MarkerExpression => run n .Grouped
    | .Expression =>
      pseq (palt (run n .Scoped) (palt (run n .LambdaExpr) (run n .Level7))) ws
    | .Scoped => pseq ws (pseq (run n .Scope) (pseq ws (run n .Expression)))
    | .Scope =>
      pseq (run n .CreateScope) (pseq ws (pseq (popt (run n .Assignments)) (pchar ')')))
    | .CreateScope => pchar '('
    | .Level7 => pseq ws (pseq (run n .Level6) (pstarP (pseq req_ws (run n .Or))))
    | .Or => pseq (run n .OrOp) (pseq req_ws (run n .Level6))
    | .OrOp => palt (plit ("||".data)) (plit ("//".data))
    | .Level6 => palt (run n .Conditional) (run n .Level5)
    | .Conditional =>
      pseq (run n .Level5) (pseq ws (pseq (pchar '?')
        (pseq (run n .Expression) (pseq (pchar ':') (run n .Expression)))))
    | .Level5 => pseq (run n .Level4) (pstarP (run n .Concatenation))
    | .Concatenation => pseq req_ws (run n .Level4)
    | .Level4 =>
      pseq (run n .Level3) (pstarP (pseq req_ws (palt (run n .LogOr) (run n .LogAnd))))
    | .LogOr => pseq (plit ("-or".data)) (pseq req_ws (run n .Level3))
    | .LogAnd => pseq (plit ("-and".data)) (pseq req_ws (run n .Level3))
    | .Level3 => pseq (run n .Level2) (pstarP (pseq req_ws (run n .Comparison)))
    | .Comparison => pseq (run n .CompareOp) (pseq req_ws (run n .Level2))
    | .CompareOp =>
      palt (plit ("==".data)) (palt (plit ("!=".data)) (palt (plit ("<=".data))
        (palt (plit (">=".data)) (palt (pchar '>') (palt (pchar '<') (pchar '>'))))))
    | .Level2 =>
      pseq (run n .Level1)
        (pstarP (pseq req_ws (palt (run n .Addition) (run n .Subtraction))))
    | .Addition => pseq (pchar '+') (pseq req_ws (run n .Level1))
    | .Subtraction => pseq (pchar '-') (pseq req_ws (run n .Level1))
    | .Level1 =>
      pseq (run n .Level0)
        (pstarP (pseq req_ws
          (palt (run n .Multiplication) (palt (run n .Division) (run n .Modulo)))))
    | .Multiplication => pseq (pchar '*') (pseq req_ws (run n .Level0))
    | .Division => pseq (pchar '/') (pseq req_ws (run n .Level0))
    | .Modulo => pseq (pchar '%') (pseq req_ws (run n .Level0))
    | .Level0 =>
      palt IP (palt StringRule (palt Number (palt Boolean (palt Undefined
        (palt Nil (palt Symbol (palt (run n .Not) (palt (run n .Substitution)
          (palt Merge (palt Auto (palt (run n .Lambda) (run n .Chained))))))))))))
    | .Chained =>
      pseq
        (palt (run n .MapMapping) (palt (run n .Sync) (palt (run n .Catch)
          (palt (run n .Mapping) (palt (run n .MapSelection) (palt (run n .Selection)
            (palt (run n .Sum) (palt (run n .List) (palt (run n .Map)
              (palt (run n .Range) (palt (run n .Grouped)
                (palt Reference (run n .TopIndex)))))))))))))
        (pstarP (run n .ChainedQualifiedExpression))
    | .ChainedQualifiedExpression =>
      palt (run n .ChainedCall) (palt (run n .Currying)
        (palt (run n .ChainedRef) (palt (run n .ChainedDynRef) (run n .Projection))))
    | .ChainedRef => pseq PathComponent FollowUpRef
    | .ChainedDynRef =>
      pseq (popt (pchar '.')) (pseq (pchar '[') (pseq (run n .Expression) (pchar ']')))
    | .TopIndex =>
      pseq (pchar '.') (pseq (pchar '[') (pseq (run n .Expression) (pchar ']')))
    | .Slice => run n .Range
    | .Currying => pseq (pchar '*') (run n .ChainedCall)
    | .ChainedCall =>
      pseq (run n .StartArguments) (pseq (popt (run n .NameArgumentList)) (pchar ')'))
    | .StartArguments => pseq (pchar '(') ws
    | .NameArgumentList =>
      pseq
        (palt
          (pseq (run n .NextNameArgument)
            (pstarP (pseq (pchar ',') (run n .NextNameArgument))))
          (run n .NextExpression))
        (pstarP (pseq (pchar ',') (run n .NextExpression)))
    | .NextNameArgument =>
      pseq ws (pseq Name (pseq ws (pseq (pchar '=')
        (pseq ws (pseq (run n .Expression) ws)))))
    | .ExpressionList =>
      pseq (run n .NextExpression) (pstarP (pseq (pchar ',') (run n .NextExpression)))
    | .NextExpression => pseq (run n .Expression) (popt (run n .ListExpansion))
    | .ListExpansion => pseq (plit ("...".data)) ws
    | .Projection =>
      pseq (popt (pchar '.'))
        (pseq (palt (plit ("[*]".data)) (run n .Slice))
          (pseq (run n .ProjectionValue) (pstarP (run n .ChainedQualifiedExpression))))
    | .ProjectionValue => pempty
    | .Substitution => pseq (pchar '*') (run n .Level0)
    | .Not => pseq (pchar '!') (pseq ws (run n .Level0))
    | .Grouped => pseq (pchar '(') (pseq (run n .Expression) (pchar ')'))
    | .Range =>
      pseq (run n .StartRange) (pseq (popt (run n .Expression))
        (pseq (run n .RangeOp) (pseq (popt (run n .Expression)) (pchar ']'))))
    | .StartRange => pchar '['
    | .RangeOp => plit ("..".data)
    | .List => pseq (run n .StartList) (pseq (popt (run n .ExpressionList)) (pchar ']'))
    | .StartList => pseq (pchar '[') ws
    | .Map =>
      pseq (run n .CreateMap) (pseq ws (pseq (popt (run n .Assignments)) (pchar '}')))
    | .CreateMap => pchar '{'
    | .Assignments =>
      pseq (run n .Assignment) (pstarP (pseq (pchar ',') (run n .Assignment)))
    | .Assignment => pseq (run n .Expression) (pseq (pchar '=') (run n .Expression))
    | .Default => pempty
    | .Sync =>
      pseq (plit ("sync".data)) (pseq (pchar '[') (pseq (run n .Level7)
        (pseq
          (palt
            (pseq
              (palt (pseq (run n .LambdaExpr) (run n .LambdaExt))
                (pseq (run n .LambdaOrExpr) (run n .LambdaOrExpr)))
              (palt (pseq (pchar '|') (run n .Expression)) (run n .Default)))
            (pseq (run n .LambdaOrExpr) (pseq (run n .Default) (run n .Default))))
          (pchar ']'))))
    | .LambdaExt => pseq (pchar ',') (run n .Expression)
    | .LambdaOrExpr =>
      palt (run n .LambdaExpr) (pseq (pchar '|') (run n .Expression))
    | .Catch =>
      pseq (plit ("catch".data)) (pseq (pchar '[') (pseq (run n .Level7)
        (pseq (run n .LambdaOrExpr) (pchar ']'))))
    | .MapMapping =>
      pseq (plit ("map".data)) (pseq (pchar '{') (pseq (run n .Level7)
        (pseq (run n .LambdaOrExpr) (pchar '}'))))
    | .Mapping =>
      pseq (plit ("map".data)) (pseq (pchar '[') (pseq (run n .Level7)
        (pseq (run n .LambdaOrExpr) (pchar ']'))))
    | .MapSelection =>
      pseq (plit ("select".data)) (pseq (pchar '{') (pseq (run n .Level7)
        (pseq (run n .LambdaOrExpr) (pchar '}'))))
    | .Selection =>
      pseq (plit ("select".data)) (pseq (pchar '[') (pseq (run n .Level7)
        (pseq (run n .LambdaOrExpr) (pchar ']'))))
    | .Sum =>
      pseq (plit ("sum".data)) (pseq (pchar '[') (pseq (run n .Level7)
        (pseq (pchar '|') (pseq (run n .Level7)
          (pseq (run n .LambdaOrExpr) (pchar ']'))))))
    | .Lambda =>
      pseq (plit ("lambda".data)) (palt (run n .LambdaRef) (run n .LambdaExpr))
    | .LambdaRef => pseq req_ws (run n .Expression)
    | .LambdaExpr =>
      pseq ws (pseq (run n .Params) (pseq ws (pseq (plit ("->".data)) (run n .Expression))))
    | .Params =>
      pseq (pchar '|') (pseq (run n .StartParams)
        (pseq ws (pseq (popt (run n .Names)) (pchar '|'))))
    | .StartParams => pempty
    | .Names =>
      pseq (run n .NextName)
        (pseq (pstarP (pseq (pchar ',') (run n .NextName)))
          (pseq (popt (run n .DefaultValue))
            (pseq (pstarP (pseq (pchar ',') (pseq (run n .NextName) (run n .DefaultValue))))
              (popt (run n .VarParams)))))
    | .NextName => pseq ws (pseq Name ws)
    | .DefaultValue => pseq (pchar '=') (run n .Expression)
    | .VarParams => pseq (plit ("...".data)) ws

end Dynaml

/-! ## C1: `merge(` parses as a function call, not a merge directive -/

set_option maxHeartbeats 4000000 in
/-- C1: for every input in which the keyword `merge` is immediately followed
by `(`, the `Merge` production fails - `SimpleMerge` rejects it through the
`!'('` negative lookahead and `RefMerge` requires whitespace after `merge` -
so no merge directive is produced; on `merge(x)` the `Level0` production
instead succeeds exactly through `Chained`, parsing the reference `merge`
followed by a `ChainedCall` argument list, i.e. a function call. -/
theorem C1_merge_followed_by_paren_is_call :
    (∀ s : List Char, Dynaml.Merge ('m' :: 'e' :: 'r' :: 'g' :: 'e' :: '(' :: s) = none) ∧
    (∀ s : List Char, Dynaml.RefMerge ('m' :: 'e' :: 'r' :: 'g' :: 'e' :: '(' :: s) = none) ∧
    (∀ s : List Char, Dynaml.SimpleMerge ('m' :: 'e' :: 'r' :: 'g' :: 'e' :: '(' :: s) = none) ∧
    Dynaml.run 30 .Level0 ("merge(x)".data) = Dynaml.run 30 .Chained ("merge(x)".data) ∧
    Dynaml.run 30 .Level0 ("merge(x)".data) = some [] ∧
    Dynaml.Reference ("merge(x)".data) = some ("(x)".data) ∧
    Dynaml.run 30 .ChainedCall ("(x)".data) = some [] :=
  ⟨fun _ => rfl, fun _ => rfl, fun _ => rfl, by decide, by decide, rfl, by decide⟩

/-! ## C4: plain-mode string literals -/

namespace Dynaml

theorem shrinks_stringItem : Peg.Shrinks stringItem :=
  Peg.shrinks_palt (Peg.shrinks_plit_cons _ _)
    (Peg.shrinks_pseq_right (Peg.nonGrow_pnot _) Peg.shrinks_pdot)

/-- The interiors on which the `String` production's repetition
`(('\\' '"') / (!'"' .))*` stops exactly at the closing quote: every `"` is
directly preceded by a `\`, and the interior does not end in a `\` that the
grammar would combine with the terminating quote into a `\"` item. -/
def stringInteriorOk : List Char → Bool
  | [] => true
  | c :: r =>
    if c = '"' then false
    else if c = '\\' then
      match r with
      | [] => false
      | d :: r' => if d = '"' then stringInteriorOk r' else stringInteriorOk (d :: r')
    else stringInteriorOk r

theorem pstar_string_interior (inner : List Char) (h : stringInteriorOk inner = true) :
    Peg.pstar stringItem (inner ++ ['"']) = ['"'] := by
  have main : ∀ n (inner : List Char), inner.length ≤ n →
      stringInteriorOk inner = true → Peg.pstar stringItem (inner ++ ['"']) = ['"'] := by
    intro n
    induction n with
    | zero =>
      intro inner hlen h
      have hnil : inner = [] := List.eq_nil_of_length_eq_zero (Nat.le_zero.mp hlen)
      subst hnil
      exact Peg.pstar_none rfl
    | succ n IH =>
      intro inner hlen h
      cases inner with
      | nil => exact Peg.pstar_none rfl
      | cons c r =>
        by_cases hq : c = '"'
        · subst hq
          rw [stringInteriorOk.eq_def] at h
          simp at h
        · by_cases hb : c = '\\'
          · subst hb
            cases r with
            | nil =>
              rw [stringInteriorOk.eq_def] at h
              simp at h
            | cons d r' =>
              by_cases hd : d = '"'
              · subst hd
                have hok : stringInteriorOk r' = true := by
                  rw [stringInteriorOk.eq_def] at h
                  simpa using h
                have hstep : stringItem ('\\' :: '"' :: (r' ++ ['"'])) = some (r' ++ ['"']) := rfl
                have hlen' : r'.length ≤ n := by
                  simp only [List.length_cons] at hlen; omega
                calc Peg.pstar stringItem (('\\' :: '"' :: r') ++ ['"'])
                    = Peg.pstar stringItem (r' ++ ['"']) := by
                      rw [List.cons_append, List.cons_append]
                      exact Peg.pstar_step shrinks_stringItem hstep
                  _ = ['"'] := IH r' hlen' hok
              · have hok : stringInteriorOk (d :: r') = true := by
                  rw [stringInteriorOk.eq_def] at h
                  simpa [hd] using h
                have hstep : stringItem ('\\' :: ((d :: r') ++ ['"'])) =
                    some ((d :: r') ++ ['"']) := by
                  simp [stringItem, Peg.palt, Peg.plit, Peg.pseq, Peg.pchar,
                    Peg.pnot, Peg.pdot, hd]
                have hlen' : (d :: r').length ≤ n := by
                  simp only [List.length_cons] at hlen ⊢; omega
                calc Peg.pstar stringItem (('\\' :: d :: r') ++ ['"'])
                    = Peg.pstar stringItem ((d :: r') ++ ['"']) := by
                      rw [List.cons_append]
                      exact Peg.pstar_step shrinks_stringItem hstep
                  _ = ['"'] := IH (d :: r') hlen' hok
          · have hok : stringInteriorOk r = true := by
              rw [stringInteriorOk.eq_def] at h
              simpa [hq, hb] using h
            have hstep : stringItem (c :: (r ++ ['"'])) = some (r ++ ['"']) := by
              simp [stringItem, Peg.palt, Peg.plit, Peg.pseq, Peg.pchar,
                Peg.pnot, Peg.pdot, hq, hb]
            have hlen' : r.length ≤ n := by
              simp only [List.length_cons] at hlen; omega
            calc Peg.pstar stringItem ((c :: r) ++ ['"'])
                = Peg.pstar stringItem (r ++ ['"']) := by
                  rw [List.cons_append]
                  exact Peg.pstar_step shrinks_stringItem hstep
              _ = ['"'] := IH r hlen' hok
  exact main inner.length inner (Nat.le_refl _) h

end Dynaml

/-- C4 (counterexample): the literal `"\\"` - a double-quoted literal whose
interior is exactly the claimed escape `\\` - is rejected by the `String`
production: the repetition reads its `\` `"` tail as a `\"` item, swallowing
the closing quote. The claim as stated asserts such a literal is accepted. -/
theorem C4_counterexample_escaped_backslash :
    Dynaml.StringRule ('"' :: '\\' :: '\\' :: '"' :: []) = none := rfl

/-- C4 (amended): in plain mode the `String` production accepts a
double-quoted literal exactly ending at the first quote not consumed as part
of a `\"` item: it accepts every interior in which each `"` is directly
preceded by `\` and which does not end in a `\` immediately before the
closing quote (`stringInteriorOk`); in particular the escapes `\"`, `\n`,
`\t` and interior backslashes not adjacent to the closing quote are accepted,
but `\\` is not an escape at the grammar level, so an interior ending in `\\`
is rejected. -/
theorem C4_plain_string_literal_lexing :
    (∀ inner, Dynaml.stringInteriorOk inner = true →
      Dynaml.StringRule ('"' :: (inner ++ ['"'])) = some []) ∧
    Dynaml.StringRule ('"' :: '\\' :: 'n' :: '"' :: []) = some [] ∧
    Dynaml.StringRule ('"' :: '\\' :: 't' :: '"' :: []) = some [] ∧
    Dynaml.StringRule ('"' :: 'a' :: '\\' :: '"' :: 'b' :: '"' :: []) = some [] := by
  refine ⟨?_, rfl, rfl, rfl⟩
  intro inner h
  have hs : Peg.pstar Dynaml.stringItem (inner ++ ['"']) = ['"'] :=
    Dynaml.pstar_string_interior inner h
  simp [Dynaml.StringRule, Peg.pseq, Peg.pchar, Peg.pstarP, hs]

/-- C4 (witness): the amended theorem applied to the one-character interior
`x`. -/
theorem C4_witness :
    Dynaml.stringInteriorOk ('x' :: []) = true ∧
    Dynaml.StringRule ('"' :: (('x' :: []) ++ ['"'])) = some [] :=
  ⟨by decide, C4_plain_string_literal_lexing.1 ('x' :: []) (by decide)⟩

/-! ## C2: the surface forms accepted by the `Reference` production -/

namespace Peg

theorem dropWhile_all {p : Char → Bool} :
    ∀ {xs : List Char}, (∀ c ∈ xs, p c = true) → xs.dropWhile p = [] := by
  intro xs h
  induction xs with
  | nil => rfl
  | cons c t ih =>
    have hc : p c = true := h c (List.mem_cons_self c t)
    simp only [List.dropWhile_cons, hc, if_true]
    exact ih (fun d hd => h d (List.mem_cons_of_mem c hd))

theorem dropWhile_all_append {p : Char → Bool} {y : Char} {r : List Char}
    (hy : p y = false) :
    ∀ {xs : List Char}, (∀ c ∈ xs, p c = true) →
      (xs ++ y :: r).dropWhile p = y :: r := by
  intro xs h
  induction xs with
  | nil => simp [List.dropWhile_cons, hy]
  | cons c t ih =>
    have hc : p c = true := h c (List.mem_cons_self c t)
    simp only [List.cons_append, List.dropWhile_cons, hc, if_true]
    exact ih (fun d hd => h d (List.mem_cons_of_mem c hd))

theorem all_takeWhile (p : Char → Bool) :
    ∀ (l : List Char), ∀ c ∈ l.takeWhile p, p c = true := by
  intro l
  induction l with
  | nil => intro c hc; simp [List.takeWhile] at hc
  | cons d t ih =>
    intro c hc
    by_cases hd : p d
    · simp only [List.takeWhile_cons, hd, if_true] at hc
      rcases List.mem_cons.mp hc with h | h
      · exact h ▸ hd
      · exact ih c h
    · simp only [List.takeWhile_cons, hd] at hc
      simp at hc

theorem popt_cases {f : Parser} {s r : List Char} (h : popt f s = some r) :
    f s = some r ∨ (f s = none ∧ r = s) := by
  simp only [popt, Option.some.injEq] at h
  cases hf : f s with
  | some m => rw [hf] at h; simp only [Option.getD_some] at h; exact Or.inl (h ▸ rfl)
  | none => rw [hf] at h; simp only [Option.getD_none] at h; exact Or.inr ⟨rfl, h.symm⟩

theorem pseq_eq_some {f g : Parser} {s r : List Char} (h : pseq f g s = some r) :
    ∃ m, f s = some m ∧ g m = some r := by
  simpa only [pseq, Option.bind_eq_some] using h

theorem palt_cases {f g : Parser} {s r : List Char} (h : palt f g s = some r) :
    f s = some r ∨ (f s = none ∧ g s = some r) := by
  simp only [palt] at h
  cases hf : f s with
  | some m => rw [hf] at h; exact Or.inl h
  | none => rw [hf] at h; exact Or.inr ⟨rfl, h⟩

theorem pstarP_eq_some {f : Parser} {s r : List Char} (h : pstarP f s = some r) :
    r = pstar f s := by
  simpa only [pstarP, Option.some.injEq, eq_comm] using h

/-- Split off the consumption of a greedy character-class repetition. -/
theorem pstarP_pclass_split {p : Char → Bool} {s r : List Char}
    (h : pstarP (pclass p) s = some r) :
    ∃ tw, s = tw ++ r ∧ ∀ c ∈ tw, p c = true := by
  have hr : r = s.dropWhile p := by rw [pstarP_eq_some h, pstar_pclass]
  exact ⟨s.takeWhile p,
    by rw [hr]; exact (List.takeWhile_append_dropWhile _ _).symm,
    all_takeWhile _ _⟩

end Peg

namespace Dynaml

/-- The character shape of the `Key` production: a `nameChar` head, a run of
`keyTailChar`s, and an optional single `':'`-separated second part. -/
def KeyStr (pre : List Char) : Prop :=
  ∃ x xs rest2, pre = x :: (xs ++ rest2) ∧ nameChar x = true ∧
    (∀ c ∈ xs, keyTailChar c = true) ∧
    (rest2 = [] ∨ ∃ y ys, rest2 = ':' :: y :: ys ∧ nameChar y = true ∧
      ∀ c ∈ ys, keyTailChar c = true)

/-- The character shape of the `Index` production: one or more digits inside
brackets, after an optional minus sign. -/
def IndexStr (ix : List Char) : Prop :=
  ∃ (neg : Bool) (ds : List Char), ds ≠ [] ∧ (∀ c ∈ ds, isDigit09 c = true) ∧
    ix = '[' :: ((cond neg ('-' :: []) []) ++ (ds ++ (']' :: [])))

theorem Key_accepts {k : List Char} (h : KeyStr k) : Key k = some [] := by
  obtain ⟨x, xs, rest2, hk, hx, hxs, hrest⟩ := h
  subst hk
  rcases hrest with hr | ⟨y, ys, hr, hy, hys⟩
  · subst hr
    have hdrop : xs.dropWhile keyTailChar = [] := Peg.dropWhile_all hxs
    simp [Key, Peg.pseq, Peg.pclass, hx, Peg.pstarP, Peg.pstar_pclass, hdrop,
      Peg.popt, Peg.pchar]
  · subst hr
    have hdrop : (xs ++ ':' :: y :: ys).dropWhile keyTailChar = ':' :: y :: ys :=
      Peg.dropWhile_all_append (by decide) hxs
    have hdrop2 : ys.dropWhile keyTailChar = [] := Peg.dropWhile_all hys
    simp [Key, Peg.pseq, Peg.pstarP, Peg.pstar_pclass, hdrop,
      Peg.popt, Peg.pchar, Peg.pclass, hx, hy, hdrop2]

theorem Key_consumed {s r : List Char} (h : Key s = some r) :
    ∃ pre, s = pre ++ r ∧ KeyStr pre := by
  obtain ⟨m1, h1, h2⟩ := Peg.pseq_eq_some h
  obtain ⟨x, hs, hx⟩ := Peg.pclass_eq_some h1
  obtain ⟨m2, h3, h4⟩ := Peg.pseq_eq_some h2
  obtain ⟨tw1, hm1, htw1⟩ := Peg.pstarP_pclass_split h3
  rcases Peg.popt_cases h4 with h5 | ⟨-, h5⟩
  · -- the optional `':' ...` part is present
    obtain ⟨m3, h6, h7⟩ := Peg.pseq_eq_some h5
    have hm3 : m2 = ':' :: m3 := Peg.pchar_eq_some h6
    obtain ⟨m4, h8, h9⟩ := Peg.pseq_eq_some h7
    obtain ⟨y, hm4, hy⟩ := Peg.pclass_eq_some h8
    obtain ⟨tw4, hm4s, htw4⟩ := Peg.pstarP_pclass_split h9
    refine ⟨x :: (tw1 ++ (':' :: y :: tw4)), ?_, ?_⟩
    · rw [hs, hm1, hm3, hm4, hm4s]
      simp
    · exact ⟨x, tw1, ':' :: y :: tw4, rfl, hx, htw1,
        Or.inr ⟨y, tw4, rfl, hy, htw4⟩⟩
  · refine ⟨x :: tw1, ?_, ?_⟩
    · rw [hs, hm1, h5]
      simp
    · exact ⟨x, tw1, [], by simp, hx, htw1, Or.inl rfl⟩

theorem Index_eq_some_iff {s r : List Char} :
    Index s = some r ↔ ∃ ix, IndexStr ix ∧ s = ix ++ r := by
  constructor
  · intro h
    obtain ⟨m1, h1, h2⟩ := Peg.pseq_eq_some h
    have hs : s = '[' :: m1 := Peg.pchar_eq_some h1
    obtain ⟨m2, h3, h4⟩ := Peg.pseq_eq_some h2
    obtain ⟨m3, h5, h6⟩ := Peg.pseq_eq_some h4
    obtain ⟨m4, h7, h8⟩ := Peg.pseq_eq_some h5
    obtain ⟨d, hm2, hd⟩ := Peg.pclass_eq_some h7
    obtain ⟨tw, hm4, htw⟩ := Peg.pstarP_pclass_split h8
    have hm3r : m3 = ']' :: r := Peg.pchar_eq_some h6
    have hdigits : ∀ c ∈ d :: tw, isDigit09 c = true := by
      intro c hc
      rcases List.mem_cons.mp hc with h | h
      · exact h ▸ hd
      · exact htw c h
    rcases Peg.popt_cases h3 with h9 | ⟨-, h9⟩
    · -- minus sign present
      have hm1 : m1 = '-' :: m2 := Peg.pchar_eq_some h9
      refine ⟨'[' :: ((cond true ('-' :: []) []) ++ ((d :: tw) ++ (']' :: []))),
        ⟨true, d :: tw, by simp, hdigits, rfl⟩, ?_⟩
      rw [hs, hm1, hm2, hm4, hm3r]
      simp
    · -- no minus sign
      refine ⟨'[' :: ((cond false ('-' :: []) []) ++ ((d :: tw) ++ (']' :: []))),
        ⟨false, d :: tw, by simp, hdigits, rfl⟩, ?_⟩
      rw [hs, ← h9, hm2, hm4, hm3r]
      simp
  · rintro ⟨ix, ⟨neg, ds, hne, hds, hix⟩, hsr⟩
    subst hix; subst hsr
    cases ds with
    | nil => exact absurd rfl hne
    | cons d dt =>
      have hd : isDigit09 d = true := hds d (List.mem_cons_self d dt)
      have hdt : ∀ c ∈ dt, isDigit09 c = true :=
        fun c hc => hds c (List.mem_cons_of_mem d hc)
      have hdrop : (dt ++ ']' :: r).dropWhile isDigit09 = ']' :: r :=
        Peg.dropWhile_all_append (by decide) hdt
      cases neg with
      | true =>
        simp [Index, Peg.pseq, Peg.pchar, Peg.popt, Peg.pplus, Peg.pclass,
          Peg.pstarP, Peg.pstar_pclass, hd, hdrop]
      | false =>
        have hdm : d ≠ '-' := by
          intro e; subst e; exact absurd hd (by decide)
        simp [Index, Peg.pseq, Peg.pchar, Peg.popt, Peg.pplus, Peg.pclass,
          Peg.pstarP, Peg.pstar_pclass, hd, hdm, hdrop]

theorem PathComponent_consumed {s r : List Char} (h : PathComponent s = some r) :
    ∃ pre, s = pre ++ r ∧
      ((∃ k, pre = '.' :: k ∧ KeyStr k) ∨
        (∃ ix, IndexStr ix ∧ (pre = ix ∨ pre = '.' :: ix))) := by
  rcases Peg.palt_cases h with h1 | ⟨-, h1⟩
  · -- `'.' Key`
    obtain ⟨m, h2, h3⟩ := Peg.pseq_eq_some h1
    have hs : s = '.' :: m := Peg.pchar_eq_some h2
    obtain ⟨k, hm, hk⟩ := Key_consumed h3
    exact ⟨'.' :: k, by rw [hs, hm]; rfl, Or.inl ⟨k, rfl, hk⟩⟩
  · -- `'.'? Index`
    obtain ⟨m, h2, h3⟩ := Peg.pseq_eq_some h1
    obtain ⟨ix, hix, hm⟩ := Index_eq_some_iff.mp h3
    rcases Peg.popt_cases h2 with h4 | ⟨-, h4⟩
    · have hs : s = '.' :: m := Peg.pchar_eq_some h4
      exact ⟨'.' :: ix, by rw [hs, hm]; rfl, Or.inr ⟨ix, hix, Or.inr rfl⟩⟩
    · exact ⟨ix, by rw [← h4, hm], Or.inr ⟨ix, hix, Or.inl rfl⟩⟩

/-- If a character cannot start a `docRef` continuation where one is
expected, the whole `docRef` fails: case analysis used for tag components. -/
theorem docRef_none_of_component {c : Char} {cs : List Char}
    (hc : tagStartChar c = true) (hcs : ∀ u ∈ cs, nameChar u = true)
    (rest : List Char) :
    docRef (c :: (cs ++ ':' :: ':' :: rest)) = none := by
  by_cases h0 : c = 'd'
  · subst h0
    cases cs with
    | nil => rfl
    | cons c1 cs1 =>
      by_cases h1 : c1 = 'o'
      · subst h1
        cases cs1 with
        | nil => rfl
        | cons c2 cs2 =>
          by_cases h2 : c2 = 'c'
          · subst h2
            cases cs2 with
            | nil => rfl
            | cons c3 cs3 =>
              have hc3 : nameChar c3 = true :=
                hcs c3 (by simp)
              have hne1 : c3 ≠ '.' := by
                intro e; subst e; exact absurd hc3 (by decide)
              have hne2 : c3 ≠ ':' := by
                intro e; subst e; exact absurd hc3 (by decide)
              simp [docRef, Peg.pseq, Peg.plit, Peg.pchar, Peg.palt, hne1, hne2]
          · simp [docRef, Peg.pseq, Peg.plit, Peg.pchar, h2]
      · simp [docRef, Peg.pseq, Peg.plit, Peg.pchar, h1]
  · simp [docRef, Peg.pseq, Peg.plit, Peg.pchar, h0]

/-- The `TagPrefix` production accepts `TAG::` for every well-formed tag
component `TAG` (a letter or underscore followed by name characters). -/
theorem TagPrefix_accepts_tag {c : Char} {cs : List Char}
    (hc : tagStartChar c = true) (hcs : ∀ u ∈ cs, nameChar u = true)
    (rest : List Char) :
    TagPrefixRule (c :: (cs ++ ':' :: ':' :: rest)) = some rest := by
  have hdoc := docRef_none_of_component hc hcs rest
  have hdrop : (cs ++ ':' :: ':' :: rest).dropWhile nameChar = ':' :: ':' :: rest :=
    Peg.dropWhile_all_append (by decide) hcs
  have hitem : Peg.pseq (Peg.palt (Peg.pchar '.') (Peg.pchar ':'))
      (Peg.pseq (Peg.pclass tagStartChar) (Peg.pstarP (Peg.pclass nameChar)))
      (':' :: ':' :: rest) = none := rfl
  have htag : Tag (c :: (cs ++ ':' :: ':' :: rest)) = some (':' :: ':' :: rest) := by
    simp [Tag, TagComponent, Peg.pseq, Peg.pclass, hc, Peg.pstarP,
      Peg.pstar_pclass, hdrop, Peg.pstar_none hitem]
  simp [TagPrefixRule, Peg.pseq, Peg.palt, hdoc, htag, Peg.plit, Peg.pchar]

/-- The `TagPrefix` production accepts the document-index forms
`doc.N::`, `doc:N::`, `doc.-N::` and `doc:-N::` for every nonempty digit
sequence `N`. -/
theorem TagPrefix_accepts_doc {sep : Char} (hsep : sep = '.' ∨ sep = ':')
    (neg : Bool) {ds : List Char} (hne : ds ≠ [])
    (hds : ∀ c ∈ ds, isDigit09 c = true) (rest : List Char) :
    TagPrefixRule ('d' :: 'o' :: 'c' :: sep ::
      ((cond neg ('-' :: []) []) ++ (ds ++ ':' :: ':' :: rest))) = some rest := by
  cases ds with
  | nil => exact absurd rfl hne
  | cons d dt =>
    have hd : isDigit09 d = true := hds d (List.mem_cons_self d dt)
    have hdt : ∀ c ∈ dt, isDigit09 c = true :=
      fun c hc => hds c (List.mem_cons_of_mem d hc)
    have hdrop : (dt ++ ':' :: ':' :: rest).dropWhile isDigit09 = ':' :: ':' :: rest :=
      Peg.dropWhile_all_append (by decide) hdt
    have hdm : d ≠ '-' := by
      intro e; subst e; exact absurd hd (by decide)
    rcases hsep with h | h <;> subst h <;> cases neg <;>
      simp [TagPrefixRule, docRef, Peg.pseq, Peg.palt, Peg.plit, Peg.pchar,
        Peg.popt, Peg.pplus, Peg.pclass, Peg.pstarP, Peg.pstar_pclass,
        hd, hdm, hdrop]

/-- The `Reference` production accepts a leading-dot path consisting of a
single key (absolute paths and parent references start this way). -/
theorem Reference_accepts_dot_key {k : List Char} (h : KeyStr k) :
    Reference ('.' :: k) = some [] := by
  have hkey : Key k = some [] := Key_accepts h
  have htp : TagPrefixRule ('.' :: k) = none := rfl
  have hfur : FollowUpRef [] = some [] := rfl
  simp [Reference, Peg.pseq, Peg.palt, htp, Peg.popt, Peg.pchar, hkey, hfur]

end Dynaml

/-- C2: the reference grammar accepts exactly the claimed surface forms:
tag prefixes `TAG::` (for every well-formed tag component) and `doc.N::`,
`doc:N::`, `doc.-N::`, `doc:-N::` (for every nonempty, optionally negated
digit sequence `N`); leading-dot paths and parent references starting with
`.`; and bracketed numeric indices, which are characterized exactly as an
optional minus sign followed by one or more digits inside brackets; and a
successful `PathComponent` parse consumes nothing but a dotted key or an
optionally dotted numeric index. -/
theorem C2_reference_surface_forms :
    (∀ (sep : Char), (sep = '.' ∨ sep = ':') → ∀ (neg : Bool) (ds : List Char),
      ds ≠ [] → (∀ c ∈ ds, Dynaml.isDigit09 c = true) → ∀ rest,
      Dynaml.TagPrefixRule ('d' :: 'o' :: 'c' :: sep ::
        ((cond neg ('-' :: []) []) ++ (ds ++ ':' :: ':' :: rest))) = some rest) ∧
    (∀ (c : Char) (cs : List Char), Dynaml.tagStartChar c = true →
      (∀ u ∈ cs, Dynaml.nameChar u = true) → ∀ rest,
      Dynaml.TagPrefixRule (c :: (cs ++ ':' :: ':' :: rest)) = some rest) ∧
    (∀ k, Dynaml.KeyStr k → Dynaml.Reference ('.' :: k) = some []) ∧
    (∀ s r, Dynaml.Index s = some r ↔
      ∃ ix, Dynaml.IndexStr ix ∧ s = ix ++ r) ∧
    (∀ s r, Dynaml.PathComponent s = some r → ∃ pre, s = pre ++ r ∧
      ((∃ k, pre = '.' :: k ∧ Dynaml.KeyStr k) ∨
        (∃ ix, Dynaml.IndexStr ix ∧ (pre = ix ∨ pre = '.' :: ix)))) :=
  ⟨fun _ hsep neg _ hne hds rest => Dynaml.TagPrefix_accepts_doc hsep neg hne hds rest,
   fun _ _ hc hcs rest => Dynaml.TagPrefix_accepts_tag hc hcs rest,
   fun _ hk => Dynaml.Reference_accepts_dot_key hk,
   fun _ _ => Dynaml.Index_eq_some_iff,
   fun _ _ h => Dynaml.PathComponent_consumed h⟩

/-- C2 (witness): the reference-form theorem applied to the concrete inputs
`doc.1::x`, `v1::x`, `.a` and `[-1]`. -/
theorem C2_witness :
    Dynaml.TagPrefixRule ('d' :: 'o' :: 'c' :: '.' ::
      ((cond false ('-' :: []) []) ++ (('1' :: []) ++ ':' :: ':' :: ('x' :: [])))) =
        some ('x' :: []) ∧
    Dynaml.TagPrefixRule ('v' :: (('1' :: []) ++ ':' :: ':' :: ('x' :: []))) =
      some ('x' :: []) ∧
    Dynaml.Reference ('.' :: ('a' :: [])) = some [] ∧
    Dynaml.Index ('[' :: '-' :: '1' :: ']' :: []) = some [] :=
  ⟨C2_reference_surface_forms.1 '.' (Or.inl rfl) false ('1' :: [])
      (by simp) (by decide) ('x' :: []),
   C2_reference_surface_forms.2.1 'v' ('1' :: []) (by decide) (by decide) ('x' :: []),
   C2_reference_surface_forms.2.2.1 ('a' :: [])
      ⟨'a', [], [], by simp, by decide, by simp, Or.inl rfl⟩,
   (C2_reference_surface_forms.2.2.2.1 ('[' :: '-' :: '1' :: ']' :: []) []).mpr
      ⟨'[' :: ((cond true ('-' :: []) []) ++ (('1' :: []) ++ (']' :: []))),
        ⟨true, '1' :: [], by simp, by decide, rfl⟩, by simp⟩⟩

/-! ## C3 and C5: the evaluator helper of `dynaml/expression.go`

The models below embed `EvaluationInfo`, `EvaluationInfo.Join` and
`ResolveExpressionOrPushEvaluation` from `dynaml/expression.go`.  The
expression type, the binding type, the evaluation function behind the
`Expression` interface and the `KeepArgWrapper` helper (whose definition is
not among the sources; only its call site is) are universally quantified
parameters, so the theorems hold for every implementation of them. -/

namespace Dynaml

/-- `yaml.Issue` as used by `dynaml/expression.go` (the `yaml` package is
outside the sources): a message, a sequence flag and nested issues. -/
inductive Issue where
  | mk (issue : String) (sequence : Bool) (nested : List Issue)

/-- The message of an issue (`Issue.Issue` in Go). -/
def Issue.issue : Issue → String
  | .mk s _ _ => s

/-- `EvaluationInfo` (`dynaml/expression.go`), with `RedirectPath` as an
option to keep Go's nil/non-nil slice distinction, cleanups as an opaque
list and `yaml.NodeFlags` as a bitmask. -/
structure EvaluationInfo where
  redirectPath : Option (List String)
  replace : Bool
  merged : Bool
  preferred : Bool
  keyName : String
  source : String
  localError : Bool
  failed : Bool
  undefined : Bool
  raw : Bool
  issue : Issue
  cleanups : List Nat
  nodeFlags : Nat

/-- `DefaultInfo` (`dynaml/expression.go`). -/
def DefaultInfo : EvaluationInfo :=
  ⟨none, false, false, false, "", "", false, false, false, false,
    ⟨"", false, []⟩, [], 0⟩

/-- `EvaluationInfo.Join` (`dynaml/expression.go` lines 281-307). -/
def EvaluationInfo.Join (i o : EvaluationInfo) : EvaluationInfo :=
  { i with
    redirectPath := if o.redirectPath ≠ none then o.redirectPath else i.redirectPath
    replace := o.replace
    preferred := i.preferred || o.preferred
    merged := i.merged || o.merged
    keyName := if o.keyName ≠ "" then o.keyName else i.keyName
    issue := if o.issue.issue ≠ "" then o.issue else i.issue
    localError := i.localError || o.localError
    failed := i.failed || o.failed
    undefined := i.undefined || o.undefined
    nodeFlags := i.nodeFlags ||| o.nodeFlags
    cleanups := i.cleanups ++ o.cleanups }

/-- A Go `interface{}` evaluation result: either an ordinary value or an
`Expression` (the still-unresolved, deferred case).  `none` at the use sites
stands for Go's `nil`. -/
inductive GoValue (Expr : Type) where
  | plain (v : Nat)
  | expr (e : Expr)

/-- `ResolveExpressionOrPushEvaluation` (`dynaml/expression.go` lines
309-325).  `eval` is the `Expression.Evaluate` method of the dynamic type of
`*e`; `keepArgWrapper` is `KeepArgWrapper`.  The result bundles the returned
triple with the final values of the by-pointer arguments `*e` and
`*resolved`. -/
def ResolveExpressionOrPushEvaluation {Expr B : Type}
    (eval : Expr → B → Bool → Option (GoValue Expr) × EvaluationInfo × Bool)
    (keepArgWrapper : Expr → Expr → Expr)
    (e : Expr) (resolved : Bool) (info : Option EvaluationInfo)
    (binding : B) (locally : Bool) :
    (Option (GoValue Expr) × EvaluationInfo × Bool) × Expr × Bool :=
  match eval e binding locally with
  | (val, infoe0, ok) =>
    let infoe := match info with
      | some i => i.Join infoe0
      | none => infoe0
    if ok then
      match val with
      | some (.expr v) => ((none, infoe, true), keepArgWrapper v e, false)
      | _ => ((val, infoe, true), e, resolved)
    else ((none, infoe, false), e, resolved)

end Dynaml

/-- C3: for every expression, binding and locally flag (and every
implementation of evaluation and of `KeepArgWrapper`),
`ResolveExpressionOrPushEvaluation` returns `ok = false` exactly when the
underlying `Evaluate` returns `ok = false`; and when `Evaluate` succeeds
with a value that is itself an expression (the deferred case), the helper
returns `ok = true` with a nil value and sets the resolved flag to false. -/
theorem C3_resolve_or_push_evaluation {Expr B : Type}
    (eval : Expr → B → Bool → Option (Dynaml.GoValue Expr) × Dynaml.EvaluationInfo × Bool)
    (keepArgWrapper : Expr → Expr → Expr)
    (e : Expr) (resolved : Bool) (info : Option Dynaml.EvaluationInfo)
    (binding : B) (locally : Bool) :
    ((Dynaml.ResolveExpressionOrPushEvaluation eval keepArgWrapper e resolved info
        binding locally).1.2.2 = false ↔ (eval e binding locally).2.2 = false) ∧
    (∀ v i, eval e binding locally = (some (.expr v), i, true) →
      (Dynaml.ResolveExpressionOrPushEvaluation eval keepArgWrapper e resolved info
          binding locally).1.1 = none ∧
      (Dynaml.ResolveExpressionOrPushEvaluation eval keepArgWrapper e resolved info
          binding locally).1.2.2 = true ∧
      (Dynaml.ResolveExpressionOrPushEvaluation eval keepArgWrapper e resolved info
          binding locally).2.2 = false) := by
  rcases heval : eval e binding locally with ⟨val, infoe0, ok⟩
  constructor
  · simp only [Dynaml.ResolveExpressionOrPushEvaluation, heval]
    cases ok with
    | false => simp
    | true =>
      cases val with
      | none => simp
      | some gv =>
        cases gv with
        | plain v => simp
        | expr v => simp
  · intro v i hvi
    injection hvi with h1 h2
    injection h2 with h2 h3
    subst h1; subst h2; subst h3
    simp only [Dynaml.ResolveExpressionOrPushEvaluation, heval]
    simp

/-- C3 (witness): the deferred branch of the helper at a concrete
instantiation (unit expressions, an evaluation that returns a deferred
expression). -/
theorem C3_witness :
    (Dynaml.ResolveExpressionOrPushEvaluation
        (fun (_ : Unit) (_ : Unit) _ => (some (Dynaml.GoValue.expr ()), Dynaml.DefaultInfo, true))
        (fun v _ => v) () true none () false).1.1 = none ∧
    (Dynaml.ResolveExpressionOrPushEvaluation
        (fun (_ : Unit) (_ : Unit) _ => (some (Dynaml.GoValue.expr ()), Dynaml.DefaultInfo, true))
        (fun v _ => v) () true none () false).1.2.2 = true ∧
    (Dynaml.ResolveExpressionOrPushEvaluation
        (fun (_ : Unit) (_ : Unit) _ => (some (Dynaml.GoValue.expr ()), Dynaml.DefaultInfo, true))
        (fun v _ => v) () true none () false).2.2 = false :=
  (C3_resolve_or_push_evaluation
      (fun (_ : Unit) (_ : Unit) _ => (some (Dynaml.GoValue.expr ()), Dynaml.DefaultInfo, true))
      (fun v _ => v) () true none () false).2 () Dynaml.DefaultInfo rfl

/-! ## C5: `StringExpr.Evaluate` in `dynaml/string.go` -/

namespace Dynaml

/-- `StringExpr` (`dynaml/string.go`). -/
structure StringExpr where
  Value : String

/-- `StringExpr.Evaluate` exactly as declared in `dynaml/string.go`: it
takes only a binding and returns the pair `(e.Value, true)` - a `yaml.Node`
and a `bool`.  There is no `EvaluationInfo` result and no locally flag, so
this method does not implement the three-valued `Expression` interface
declared at `dynaml/expression.go` lines 217-219. -/
def StringExpr.Evaluate {B : Type} (e : StringExpr) (_ : B) : String × Bool :=
  (e.Value, true)

end Dynaml

/-- C5: evaluating a string literal via the method actually defined in
`dynaml/string.go` yields the literal's value and `ok = true`, but only as a
two-component result `(value, ok)` - the method's type carries no
`EvaluationInfo` and no locally flag, so the evaluation does not conform to
the public contract `evaluate(expr, binding, locally_only) ->
(value_or_deferred, info, ok)` required by the `Expression` interface of
`dynaml/expression.go`. -/
theorem C5_string_expr_evaluate (B : Type) (b : B) (v : String) :
    (Dynaml.StringExpr.mk v).Evaluate b = (v, true) := rfl

/-! ## C9: `CheckTagName` in `dynaml/expression.go` -/

namespace Dynaml

/-- The possible errors of `CheckTagName`, by their message. -/
inductive TagNameErr where
  | emptyComponent
  | digitStart
  | invalidChar (c : Char)
  deriving DecidableEq

/-- The loop of `CheckTagName` (`dynaml/expression.go` lines 21-48); `l` is
the rune length of the current component. -/
def checkTagNameLoop : Nat → List Char → Option TagNameErr
  | _, [] => none
  | l, c :: rest =>
    if c = ':' then
      if l = 0 then some .emptyComponent
      else checkTagNameLoop 0 rest
    else
      if isDigit09 c then
        if l + 1 = 1 then some .digitStart else checkTagNameLoop (l + 1) rest
      else if isLowerAZ c then checkTagNameLoop (l + 1) rest
      else if isUpperAZ c then checkTagNameLoop (l + 1) rest
      else some (.invalidChar c)

/-- `CheckTagName` (`dynaml/expression.go`). -/
def CheckTagName (name : String) : Option TagNameErr :=
  checkTagNameLoop 0 name.data

/-- An ASCII letter or digit (underscore is not included). -/
def alnumChar (c : Char) : Bool := isLowerAZ c || isUpperAZ c || isDigit09 c

/-- The adjacency condition of a valid tag name: a separator or a digit may
not directly follow a separator (components are nonempty and do not start
with a digit).  The boundary before the first character behaves like a
separator. -/
def tagChainR (a b : Char) : Prop := (b = ':' ∨ isDigit09 b = true) → a ≠ ':'

instance : DecidableRel tagChainR := fun a b => by
  unfold tagChainR; infer_instance

/-- When neither head is a separator, the chain condition over a tail does
not depend on which head precedes it. -/
theorem chain_head_congr {a b : Char} (ha : a ≠ ':') (hb : b ≠ ':')
    (rest : List Char) :
    List.Chain' tagChainR (a :: rest) ↔ List.Chain' tagChainR (b :: rest) := by
  cases rest with
  | nil => simp
  | cons c r =>
    simp only [List.chain'_cons]
    constructor
    · rintro ⟨-, hc⟩; exact ⟨fun _ => hb, hc⟩
    · rintro ⟨-, hc⟩; exact ⟨fun _ => ha, hc⟩

theorem loop_colon_zero (rest : List Char) :
    checkTagNameLoop 0 (':' :: rest) = some .emptyComponent := by
  simp [checkTagNameLoop]

theorem loop_colon_pos {l : Nat} (hl : l ≠ 0) (rest : List Char) :
    checkTagNameLoop l (':' :: rest) = checkTagNameLoop 0 rest := by
  simp [checkTagNameLoop, hl]

theorem loop_digit_zero {c : Char} (hc : c ≠ ':') (hd : isDigit09 c = true)
    (rest : List Char) :
    checkTagNameLoop 0 (c :: rest) = some .digitStart := by
  simp [checkTagNameLoop, hc, hd]

theorem loop_digit_pos {c : Char} {l : Nat} (hc : c ≠ ':')
    (hd : isDigit09 c = true) (hl : l ≠ 0) (rest : List Char) :
    checkTagNameLoop l (c :: rest) = checkTagNameLoop (l + 1) rest := by
  have h1 : ¬(l + 1 = 1) := by omega
  simp [checkTagNameLoop, hc, hd, h1]

theorem loop_letter {c : Char} (hc : c ≠ ':') (hd : ¬isDigit09 c = true)
    (hal : isLowerAZ c = true ∨ isUpperAZ c = true) (l : Nat) (rest : List Char) :
    checkTagNameLoop l (c :: rest) = checkTagNameLoop (l + 1) rest := by
  rcases hal with h | h <;> simp [checkTagNameLoop, hc, hd, h]

theorem loop_invalid {c : Char} (hc : c ≠ ':') (hd : ¬isDigit09 c = true)
    (hlow : ¬isLowerAZ c = true) (hup : ¬isUpperAZ c = true) (l : Nat)
    (rest : List Char) :
    checkTagNameLoop l (c :: rest) = some (.invalidChar c) := by
  simp [checkTagNameLoop, hc, hd, hlow, hup]

theorem checkTagNameLoop_none_iff :
    ∀ (chars : List Char) (l : Nat),
      checkTagNameLoop l chars = none ↔
        ((∀ c ∈ chars, alnumChar c = true ∨ c = ':') ∧
          List.Chain' tagChainR ((if l = 0 then ':' else 'a') :: chars)) := by
  intro chars
  induction chars with
  | nil => intro l; simp [checkTagNameLoop]
  | cons c rest ih =>
    intro l
    by_cases hc : c = ':'
    · subst hc
      by_cases hl : l = 0
      · subst hl
        rw [if_pos rfl, loop_colon_zero, List.chain'_cons]
        constructor
        · intro h; cases h
        · rintro ⟨-, hR, -⟩
          exact absurd (hR (Or.inl rfl)) (by simp)
      · rw [if_neg hl, loop_colon_pos hl, ih 0, if_pos rfl, List.chain'_cons]
        constructor
        · rintro ⟨hall, hchain⟩
          refine ⟨fun d hd => ?_, fun _ => ?_, hchain⟩
          · rcases List.mem_cons.mp hd with h | h
            · exact Or.inr h
            · exact hall d h
          · simp
        · rintro ⟨hall, -, hchain⟩
          exact ⟨fun d hd => hall d (List.mem_cons_of_mem _ hd), hchain⟩
    · by_cases hdig : isDigit09 c = true
      · have hcne : c ≠ ':' := hc
        by_cases hl : l = 0
        · subst hl
          rw [if_pos rfl, loop_digit_zero hc hdig, List.chain'_cons]
          constructor
          · intro h; cases h
          · rintro ⟨-, hR, -⟩
            exact absurd (hR (Or.inr hdig)) (by simp)
        · have hl1 : ¬(l + 1 = 0) := by omega
          rw [if_neg hl, loop_digit_pos hc hdig hl, ih (l + 1), if_neg hl1,
            List.chain'_cons]
          constructor
          · rintro ⟨hall, hchain⟩
            refine ⟨fun d hd => ?_, fun _ => by simp,
              (chain_head_congr hcne (by simp) rest).mpr hchain⟩
            rcases List.mem_cons.mp hd with h | h
            · exact Or.inl (h ▸ by simp [alnumChar, hdig])
            · exact hall d h
          · rintro ⟨hall, -, hchain⟩
            exact ⟨fun d hd => hall d (List.mem_cons_of_mem _ hd),
              (chain_head_congr (by simp) hcne rest).mpr hchain⟩
      · by_cases hal : isLowerAZ c = true ∨ isUpperAZ c = true
        · have hcne : c ≠ ':' := by
            rcases hal with h | h <;> [skip; skip] <;>
              first
              | (intro e; subst e; exact absurd h (by decide))
          have halnum : alnumChar c = true := by
            rcases hal with h | h <;> simp [alnumChar, h]
          have hl1 : ¬(l + 1 = 0) := by omega
          rw [loop_letter hc hdig hal l, ih (l + 1), if_neg hl1]
          have hgoal : List.Chain' tagChainR ((if l = 0 then ':' else 'a') :: c :: rest) ↔
              List.Chain' tagChainR (c :: rest) := by
            rw [List.chain'_cons]
            constructor
            · rintro ⟨-, h2⟩; exact h2
            · intro h2
              refine ⟨fun hor => ?_, h2⟩
              exfalso
              rcases hor with h | h
              · exact hcne h
              · exact hdig h
          rw [hgoal]
          constructor
          · rintro ⟨hall, hchain⟩
            exact ⟨fun d hd => by
              rcases List.mem_cons.mp hd with h | h
              · exact Or.inl (h ▸ halnum)
              · exact hall d h,
              (chain_head_congr hcne (by simp) rest).mpr hchain⟩
          · rintro ⟨hall, hchain⟩
            exact ⟨fun d hd => hall d (List.mem_cons_of_mem _ hd),
              (chain_head_congr (show ('a' : Char) ≠ ':' by decide) hcne rest).mpr hchain⟩
        · push_neg at hal
          rw [loop_invalid hc hdig hal.1 hal.2 l]
          constructor
          · intro h; cases h
          · rintro ⟨hall, -⟩
            rcases hall c (List.mem_cons_self c rest) with h | h
            · simp [alnumChar, hdig, hal.1, hal.2] at h
            · exact absurd h hc

end Dynaml

/-- C9: `CheckTagName` returns nil exactly when every character is an ASCII
letter, digit or `':'`, no `':'` stands at the start or directly after
another `':'` (every separator is preceded by a nonempty component), and no
digit stands at the start or directly after a `':'` (no component starts
with a digit); underscores are invalid characters, and both the empty string
and names ending in `':'` are accepted with a nil result. -/
theorem C9_check_tag_name :
    (∀ name : List Char, Dynaml.checkTagNameLoop 0 name = none ↔
      ((∀ c ∈ name, Dynaml.alnumChar c = true ∨ c = ':') ∧
        List.Chain' Dynaml.tagChainR (':' :: name))) ∧
    Dynaml.CheckTagName "" = none ∧
    Dynaml.CheckTagName "a:" = none ∧
    Dynaml.CheckTagName "ab:cD9" = none ∧
    Dynaml.CheckTagName "_" = some (.invalidChar '_') ∧
    Dynaml.CheckTagName "a_b" = some (.invalidChar '_') ∧
    Dynaml.CheckTagName ":" = some .emptyComponent ∧
    Dynaml.CheckTagName "a::b" = some .emptyComponent ∧
    Dynaml.CheckTagName "1a" = some .digitStart ∧
    Dynaml.CheckTagName "a:9b" = some .digitStart := by
  refine ⟨?_, rfl, rfl, rfl, rfl, rfl, rfl, rfl, rfl, rfl⟩
  intro name
  rw [Dynaml.checkTagNameLoop_none_iff name 0]
  simp

/-- C9 (witness): the characterization applied to the concrete name `x9`. -/
theorem C9_witness : Dynaml.checkTagNameLoop 0 ('x' :: '9' :: []) = none :=
  (C9_check_tag_name.1 ('x' :: '9' :: [])).mpr ⟨by decide, by
    rw [List.chain'_cons, List.chain'_cons]
    refine ⟨fun h => ?_, fun _ => by decide, by simp⟩
    rcases h with h | h
    · exact absurd h (by decide)
    · exact absurd h (by decide)⟩

/-! ## C8: the `spiffing` context never combines a virtual filesystem with
OS access -/

namespace Spiffing

/-- Modelled from the spec: the mode constants of the `spiffing` package
(`MODE_OS_ACCESS`, `MODE_FILE_ACCESS`, `MODE_DEFAULT`) are declared outside
the sources (only their uses in `spiffing/spiff.go` are); the spec describes
the mode as independent capability bits for OS access and file access, so
`MODE_OS_ACCESS` is modelled as a single bit. -/
def MODE_OS_ACCESS : Nat := 1

/-- Modelled from the spec: the file-access capability bit. -/
def MODE_FILE_ACCESS : Nat := 2

/-- Modelled from the spec: the default mode enables both capabilities. -/
def MODE_DEFAULT : Nat := MODE_OS_ACCESS ||| MODE_FILE_ACCESS

/-- Go's `mode & ^MODE_OS_ACCESS` on a 64-bit int: mask with the bitwise
complement of `MODE_OS_ACCESS` within 64 bits. -/
def clearOSAccess (m : Nat) : Nat := m &&& (2 ^ 64 - 1 - MODE_OS_ACCESS)

/-- The mode/filesystem fragment of the `spiff` context
(`spiffing/spiff.go`); the remaining fields (key, opts, values, functions,
tags, interpolation, binding) are neither read nor written by `WithMode` and
`WithFileSystem` and cannot influence this claim. -/
structure SpiffState where
  mode : Nat
  fs : Option Nat

/-- `New` (`spiffing/spiff.go` lines 82-90): default mode, nil filesystem. -/
def New : SpiffState := { mode := MODE_DEFAULT, fs := none }

/-- `spiff.WithMode` (`spiffing/spiff.go` lines 138-144). -/
def WithMode (s : SpiffState) (mode : Nat) : SpiffState :=
  { s with mode := if s.fs ≠ none then clearOSAccess mode else mode }

/-- `spiff.WithFileSystem` (`spiffing/spiff.go` lines 150-156). -/
def WithFileSystem (s : SpiffState) (fs : Option Nat) : SpiffState :=
  { mode := if fs ≠ none then clearOSAccess s.mode else s.mode, fs := fs }

/-- Context states reachable through the `spiffing` API.  `Reset`,
`ResetStream`, `WithInterpolation`, `WithEncryptionKey`, `WithFunctions`,
`WithValues`, `SetTag` and `CleanupTags` neither read nor write `mode` or
`fs`, so they are identities on this fragment. -/
inductive Reachable : SpiffState → Prop where
  | new : Reachable New
  | withMode {s} (mode : Nat) : Reachable s → Reachable (WithMode s mode)
  | withFileSystem {s} (fs : Option Nat) : Reachable s →
      Reachable (WithFileSystem s fs)

/-- Masking with the 64-bit complement of the OS-access bit clears it. -/
theorem clearOSAccess_clears (m : Nat) :
    clearOSAccess m &&& MODE_OS_ACCESS = 0 := by
  have h : (2 ^ 64 - 1 - MODE_OS_ACCESS) &&& MODE_OS_ACCESS = 0 := by decide
  rw [clearOSAccess, Nat.land_assoc, h, Nat.and_zero]

end Spiffing

/-- C8: `WithFileSystem` with a non-nil filesystem clears `MODE_OS_ACCESS`
from the current mode, `WithMode` on a context whose filesystem is non-nil
clears `MODE_OS_ACCESS` from the requested mode, and consequently no
reachable context state has both a non-nil filesystem and the
`MODE_OS_ACCESS` bit set. -/
theorem C8_os_access_invariant :
    (∀ (s : Spiffing.SpiffState) fs, fs ≠ none →
      (Spiffing.WithFileSystem s fs).mode &&& Spiffing.MODE_OS_ACCESS = 0) ∧
    (∀ (s : Spiffing.SpiffState) m, s.fs ≠ none →
      (Spiffing.WithMode s m).mode &&& Spiffing.MODE_OS_ACCESS = 0) ∧
    (∀ s, Spiffing.Reachable s → s.fs ≠ none →
      s.mode &&& Spiffing.MODE_OS_ACCESS = 0) := by
  refine ⟨?_, ?_, ?_⟩
  · intro s fs hfs
    simp only [Spiffing.WithFileSystem, hfs, ne_eq, not_false_iff, if_true]
    exact Spiffing.clearOSAccess_clears s.mode
  · intro s m hfs
    simp only [Spiffing.WithMode, hfs, ne_eq, not_false_iff, if_true]
    exact Spiffing.clearOSAccess_clears m
  · intro s hr
    induction hr with
    | new => intro h; exact absurd rfl h
    | withMode m hr ih =>
      intro hfs
      have hsf : _ := hfs
      simp only [Spiffing.WithMode] at hfs ⊢
      simp only [hfs, ne_eq, not_false_iff, if_true]
      exact Spiffing.clearOSAccess_clears m
    | withFileSystem fs hr ih =>
      intro hfs
      simp only [Spiffing.WithFileSystem] at hfs ⊢
      simp only [hfs, ne_eq, not_false_iff, if_true]
      exact Spiffing.clearOSAccess_clears _

/-- C8 (witness): the invariant applied to the concrete reachable state
obtained by configuring a filesystem on a fresh context. -/
theorem C8_witness :
    (Spiffing.WithFileSystem Spiffing.New (some 0)).mode &&&
      Spiffing.MODE_OS_ACCESS = 0 :=
  C8_os_access_invariant.2.2 _
    (Spiffing.Reachable.withFileSystem (some 0) Spiffing.Reachable.new)
    (by simp [Spiffing.WithFileSystem])

/-! ## C7: the merge command's error-classification legend -/

namespace Cmd

/-- The error-classification legend of the merge command (`cmd/merge.go`
lines 234-237) as the concatenation of the four Go string literals. -/
def errorClassificationLegend : String :=
  "\nerror classification:\n" ++
  " *: error in local dynaml expression\n" ++
  " @: dependent of or involved in a cycle\n" ++
  " -: depending on a node with an error"

/-- `log.Fatalln` output for three values: space-separated plus newline. -/
def fatalln3 (a b c : String) : String := a ++ " " ++ b ++ " " ++ c ++ "\n"

/-- The abort paths of the merge command on evaluation errors: both the
`PrepareStubs` failure (`cmd/merge.go` lines 265-268) and the `flow.Apply`
failure (lines 280-283) call `log.Fatalln(msg, err, legend)` exactly when
the error is non-nil and partial mode is off. -/
def mergeFailureDiagnostic (allowPartial : Bool) (err : Option String)
    (msg : String) : Option String :=
  match err with
  | some e =>
    if allowPartial then none
    else some (fatalln3 msg e errorClassificationLegend)
  | none => none

theorem isInfix_of_eq {l₂ : List Char} (s t : List Char) (l₁ : List Char)
    (h : l₂ = s ++ l₁ ++ t) : l₁ <:+: l₂ := ⟨s, t, h.symm⟩

end Cmd

/-- C7: whenever the merge command fails with evaluation errors and partial
mode is off, it emits a diagnostic, and that diagnostic contains the
error-classification legend mapping `*` to an error in a local dynaml
expression, `@` to cycle involvement or dependence, and `-` to depending on
a node with an error; in partial mode or without an error nothing is
emitted. -/
theorem C7_merge_error_legend :
    (∀ (e msg : String), ∃ out,
      Cmd.mergeFailureDiagnostic false (some e) msg = some out ∧
      (" *: error in local dynaml expression\n").data <:+: out.data ∧
      (" @: dependent of or involved in a cycle\n").data <:+: out.data ∧
      (" -: depending on a node with an error").data <:+: out.data ∧
      (Cmd.errorClassificationLegend ++ "\n").data <:+ out.data) ∧
    (∀ (e msg : String), Cmd.mergeFailureDiagnostic true (some e) msg = none) ∧
    (∀ (p : Bool) (msg : String), Cmd.mergeFailureDiagnostic p none msg = none) := by
  refine ⟨?_, fun e msg => rfl, fun p msg => rfl⟩
  intro e msg
  refine ⟨_, rfl, ?_, ?_, ?_, ?_⟩
  · refine Cmd.isInfix_of_eq
      (msg.data ++ (" ").data ++ e.data ++ (" ").data ++
        ("\nerror classification:\n").data)
      ((" @: dependent of or involved in a cycle\n").data ++
        (" -: depending on a node with an error").data ++ ("\n").data) _ ?_
    simp [Cmd.fatalln3, Cmd.errorClassificationLegend, String.data_append]
  · refine Cmd.isInfix_of_eq
      (msg.data ++ (" ").data ++ e.data ++ (" ").data ++
        ("\nerror classification:\n").data ++
        (" *: error in local dynaml expression\n").data)
      ((" -: depending on a node with an error").data ++ ("\n").data) _ ?_
    simp [Cmd.fatalln3, Cmd.errorClassificationLegend, String.data_append]
  · refine Cmd.isInfix_of_eq
      (msg.data ++ (" ").data ++ e.data ++ (" ").data ++
        ("\nerror classification:\n").data ++
        (" *: error in local dynaml expression\n").data ++
        (" @: dependent of or involved in a cycle\n").data)
      (("\n").data) _ ?_
    simp [Cmd.fatalln3, Cmd.errorClassificationLegend, String.data_append]
  · refine ⟨msg.data ++ (" ").data ++ e.data ++ (" ").data, ?_⟩
    simp [Cmd.fatalln3, Cmd.errorClassificationLegend, String.data_append]

/-! ## C6: parse-error positions (`translatePositions`, `parseError.Error`) -/

namespace Dynaml

/-- `textPosition` (`dynaml/dynaml.peg.go`). -/
structure textPosition where
  line : Nat
  symbol : Nat
  deriving DecidableEq

/-- Insertion into a sorted list (used to model `sort.Ints`). -/
def insertNat (x : Nat) : List Nat → List Nat
  | [] => x :: []
  | y :: ys => if x ≤ y then x :: y :: ys else y :: insertNat x ys

/-- `sort.Ints` modelled as insertion sort (any correct sort produces the
same ascending list of naturals). -/
def sortNat : List Nat → List Nat
  | [] => []
  | x :: xs => insertNat x (sortNat xs)

/-- The scanning loop of `translatePositions` (`dynaml/dynaml.peg.go` lines
570-592): walk the buffer keeping a line counter (starting at 1) and a
symbol counter (starting at 0); a newline increments the line and resets the
symbol, any other character increments the symbol; when the index reaches
the next sorted position, record the counters, skip duplicates of that
position, and stop when all positions are translated. -/
def scanPositions : List Char → Nat → Nat → Nat → List Nat →
    List (Nat × textPosition)
  | [], _, _, _, _ => []
  | c :: rest, i, line, symbol, ps =>
    let line' := if c = '\n' then line + 1 else line
    let symbol' := if c = '\n' then 0 else symbol + 1
    match ps with
    | [] => []
    | p :: pt =>
      if i = p then
        let pt' := pt.dropWhile (fun q => decide (q = p))
        (p, ⟨line', symbol'⟩) ::
          (if pt'.isEmpty then [] else scanPositions rest (i + 1) line' symbol' pt')
      else scanPositions rest (i + 1) line' symbol' (p :: pt)

/-- `translatePositions` (`dynaml/dynaml.peg.go`). -/
def translatePositions (buffer : List Char) (positions : List Nat) :
    List (Nat × textPosition) :=
  scanPositions buffer 0 1 0 (sortNat positions)

/-- Go map lookup with the zero value for missing keys. -/
def lookupPosition (m : List (Nat × textPosition)) (p : Nat) : textPosition :=
  match m.find? (fun e => decide (e.1 = p)) with
  | some e => e.2
  | none => ⟨0, 0⟩

/-- `e.p.buffer[begin:end]`. -/
def sliceGo (buffer : List Char) (b e : Nat) : List Char :=
  (buffer.drop b).take (e - b)

/-- One character of `strconv.Quote` (modelled for the common escapes; the
exact quoting is irrelevant to the position claim). -/
def quoteGoChar (c : Char) : List Char :=
  if c = '"' then '\\' :: '"' :: []
  else if c = '\\' then '\\' :: '\\' :: []
  else if c = '\n' then '\\' :: 'n' :: []
  else if c = '\t' then '\\' :: 't' :: []
  else if c = '\r' then '\\' :: 'r' :: []
  else c :: []

/-- `strconv.Quote` (modelled). -/
def quoteGo (l : List Char) : String :=
  String.mk ('"' :: (l.foldr (fun c acc => quoteGoChar c ++ acc) ('"' :: [])))

/-- `parseError.Error` (`dynaml/dynaml.peg.go` lines 595-622) for the
reported max token: the rendered message interpolates the rule name, the
translated begin and end positions and the quoted source slice into the
format `parse error near %v (line %v symbol %v - line %v symbol %v):\n%v\n`
after a leading newline. -/
def parseErrorMessage (buffer : List Char) (ruleName : String) (b e : Nat) :
    String :=
  let translations := translatePositions buffer (b :: e :: [])
  let tb := lookupPosition translations b
  let te := lookupPosition translations e
  "\n" ++ "parse error near " ++ ruleName ++
    " (line " ++ toString tb.line ++ " symbol " ++ toString tb.symbol ++
    " - line " ++ toString te.line ++ " symbol " ++ toString te.symbol ++
    "):\n" ++ quoteGo (sliceGo buffer b e) ++ "\n"

/-- One step of the line/symbol counters. -/
def stepLineSym (ls : Nat × Nat) (c : Char) : Nat × Nat :=
  if c = '\n' then (ls.1 + 1, 0) else (ls.1, ls.2 + 1)

/-- The line reported for buffer index `p`: one more than the number of
newlines among the first `p + 1` characters. -/
def specLine (buffer : List Char) (p : Nat) : Nat :=
  1 + (buffer.take (p + 1)).count '\n'

/-- The symbol (column) reported for buffer index `p`: the number of
characters after the last newline among the first `p + 1` characters (0 when
the character at `p` is itself a newline). -/
def specSymbol (buffer : List Char) (p : Nat) : Nat :=
  ((buffer.take (p + 1)).reverse.takeWhile (fun c => !(c = '\n'))).length

theorem takeWhile_all {p : Char → Bool} :
    ∀ {l : List Char}, (∀ c ∈ l, p c = true) → l.takeWhile p = l := by
  intro l h
  induction l with
  | nil => rfl
  | cons c t ih =>
    have hc : p c = true := h c (List.mem_cons_self c t)
    simp only [List.takeWhile_cons, hc, if_true]
    rw [ih (fun d hd => h d (List.mem_cons_of_mem c hd))]

theorem foldl_stepLineSym (cs : List Char) (ls : Nat × Nat) :
    cs.foldl stepLineSym ls =
      (ls.1 + cs.count '\n',
        if '\n' ∈ cs then (cs.reverse.takeWhile (fun c => !(c = '\n'))).length
        else ls.2 + cs.length) := by
  induction cs using List.reverseRecOn generalizing ls with
  | nil => simp
  | append_singleton cs c ih =>
    rw [List.foldl_append, List.foldl_cons, List.foldl_nil, ih]
    by_cases hc : c = '\n'
    · subst hc
      have hmem : '\n' ∈ cs ++ '\n' :: [] := by simp
      have hrev : (cs ++ '\n' :: []).reverse = '\n' :: cs.reverse := by simp
      have htw : (('\n' :: cs.reverse).takeWhile (fun c => !(c = '\n'))) = [] := by
        simp [List.takeWhile_cons]
      have hcnt : (cs ++ '\n' :: []).count '\n' = cs.count '\n' + 1 := by simp
      rw [stepLineSym, if_pos rfl, if_pos hmem, hrev, htw, hcnt]
      simp [Prod.ext_iff]
      omega
    · have hnc : ('\n' == c) = false := by
        simp only [beq_eq_false_iff_ne, ne_eq]
        exact fun h => hc h.symm
      have hcnt : (cs ++ c :: []).count '\n' = cs.count '\n' := by
        rw [List.count_append]
        have h0 : (c :: []).count '\n' = 0 := by
          simp [List.count_cons, hnc, hc]
        rw [h0]
        exact Nat.add_zero _
      have hrev : (cs ++ c :: []).reverse = c :: cs.reverse := by simp
      have hmem : ('\n' ∈ cs ++ c :: []) ↔ '\n' ∈ cs := by
        simp only [List.mem_append, List.mem_singleton]
        exact ⟨fun h => h.resolve_right (fun h' => hc h'.symm), Or.inl⟩
      have htw : ((c :: cs.reverse).takeWhile (fun c => !(c = '\n'))) =
          c :: cs.reverse.takeWhile (fun c => !(c = '\n')) := by
        simp [List.takeWhile_cons, hc]
      rw [stepLineSym, if_neg hc, hcnt, hrev]
      by_cases hm : '\n' ∈ cs
      · rw [if_pos hm, if_pos (hmem.mpr hm), htw]
        simp
      · rw [if_neg hm, if_neg (fun h => hm (hmem.mp h))]
        simp [Prod.ext_iff]
        omega

theorem foldl_stepLineSym_closed (cs : List Char) :
    cs.foldl stepLineSym (1, 0) =
      (1 + cs.count '\n', (cs.reverse.takeWhile (fun c => !(c = '\n'))).length) := by
  rw [foldl_stepLineSym]
  by_cases hm : '\n' ∈ cs
  · rw [if_pos hm]
  · rw [if_neg hm]
    have htw : cs.reverse.takeWhile (fun c => !(c = '\n')) = cs.reverse := by
      apply takeWhile_all
      intro d hd
      have hdm : d ∈ cs := List.mem_reverse.mp hd
      have hne : ¬(d = '\n') := fun hh => hm (hh ▸ hdm)
      simp [hne]
    rw [htw]
    simp

theorem scanPositions_single :
    ∀ (buf : List Char) (i line sym p : Nat), i ≤ p → p - i < buf.length →
      scanPositions buf i line sym (p :: []) =
        (p, ⟨((buf.take (p - i + 1)).foldl stepLineSym (line, sym)).1,
             ((buf.take (p - i + 1)).foldl stepLineSym (line, sym)).2⟩) :: [] := by
  intro buf
  induction buf with
  | nil => intro i line sym p hip hlen; simp at hlen
  | cons c rest ih =>
    intro i line sym p hip hlen
    by_cases hipe : i = p
    · subst hipe
      have ht : (c :: rest).take (i - i + 1) = c :: [] := by
        simp [Nat.sub_self]
      rw [ht]
      by_cases hc : c = '\n' <;>
        simp [scanPositions, stepLineSym, hc]
    · have hlt : i < p := lt_of_le_of_ne hip hipe
      have hlen' : p - (i + 1) < rest.length := by
        simp only [List.length_cons] at hlen
        omega
      have htake : (c :: rest).take (p - i + 1) = c :: rest.take (p - (i + 1) + 1) := by
        have h1 : p - i + 1 = (p - (i + 1) + 1) + 1 := by omega
        rw [h1, List.take_succ_cons]
      simp only [scanPositions, if_neg hipe]
      rw [ih (i + 1) (if c = '\n' then line + 1 else line)
        (if c = '\n' then 0 else sym + 1) p (by omega) hlen', htake,
        List.foldl_cons]
      by_cases hc : c = '\n' <;> simp [stepLineSym, hc]

theorem scanPositions_pair :
    ∀ (buf : List Char) (i line sym b e : Nat), i ≤ b → b < e → e - i < buf.length →
      scanPositions buf i line sym (b :: e :: []) =
        (b, ⟨((buf.take (b - i + 1)).foldl stepLineSym (line, sym)).1,
             ((buf.take (b - i + 1)).foldl stepLineSym (line, sym)).2⟩) ::
        (e, ⟨((buf.take (e - i + 1)).foldl stepLineSym (line, sym)).1,
             ((buf.take (e - i + 1)).foldl stepLineSym (line, sym)).2⟩) :: [] := by
  intro buf
  induction buf with
  | nil => intro i line sym b e hib hbe hlen; simp at hlen
  | cons c rest ih =>
    intro i line sym b e hib hbe hlen
    by_cases hibe : i = b
    · subst hibe
      have hne : e ≠ i := by omega
      have hlen' : e - (i + 1) < rest.length := by
        simp only [List.length_cons] at hlen
        omega
      have hte : (c :: rest).take (e - i + 1) = c :: rest.take (e - (i + 1) + 1) := by
        have h1 : e - i + 1 = (e - (i + 1) + 1) + 1 := by omega
        rw [h1, List.take_succ_cons]
      have he1 : e - (i + 1) + 1 = e - i := by omega
      by_cases hc : c = '\n'
      · have hsingle := scanPositions_single rest (i + 1) (line + 1) 0 e
          (by omega) hlen'
        simp [scanPositions, stepLineSym, hc, hne, hsingle, hte, Nat.sub_self, he1]
      · have hsingle := scanPositions_single rest (i + 1) line (sym + 1) e
          (by omega) hlen'
        simp [scanPositions, stepLineSym, hc, hne, hsingle, hte, Nat.sub_self, he1]
    · have hlt : i < b := lt_of_le_of_ne hib hibe
      have hlen' : e - (i + 1) < rest.length := by
        simp only [List.length_cons] at hlen
        omega
      have htb : (c :: rest).take (b - i + 1) = c :: rest.take (b - (i + 1) + 1) := by
        have h1 : b - i + 1 = (b - (i + 1) + 1) + 1 := by omega
        rw [h1, List.take_succ_cons]
      have hte : (c :: rest).take (e - i + 1) = c :: rest.take (e - (i + 1) + 1) := by
        have h1 : e - i + 1 = (e - (i + 1) + 1) + 1 := by omega
        rw [h1, List.take_succ_cons]
      have hb1 : b - (i + 1) + 1 = b - i := by omega
      have he1 : e - (i + 1) + 1 = e - i := by omega
      by_cases hc : c = '\n'
      · have hih := ih (i + 1) (line + 1) 0 b e (by omega) hbe hlen'
        simp [scanPositions, stepLineSym, hc, hibe, hih, htb, hte, hb1, he1]
      · have hih := ih (i + 1) line (sym + 1) b e (by omega) hbe hlen'
        simp [scanPositions, stepLineSym, hc, hibe, hih, htb, hte, hb1, he1]

end Dynaml

/-- C6: the rendered parse-error message reports the begin and end positions
of the offending token as line and symbol (column) numbers computed from the
input text by the rule "a newline increments the line and resets the
symbol": the reported line is one more than the number of newlines up to and
including the position, and the reported symbol is the number of characters
after the last newline up to and including the position. -/
theorem C6_parse_error_line_symbol (buffer : List Char) (ruleName : String)
    (b e : Nat) (hbe : b < e) (hlen : e < buffer.length) :
    Dynaml.parseErrorMessage buffer ruleName b e =
      "\n" ++ "parse error near " ++ ruleName ++
      " (line " ++ toString (Dynaml.specLine buffer b) ++
      " symbol " ++ toString (Dynaml.specSymbol buffer b) ++
      " - line " ++ toString (Dynaml.specLine buffer e) ++
      " symbol " ++ toString (Dynaml.specSymbol buffer e) ++
      "):\n" ++ Dynaml.quoteGo (Dynaml.sliceGo buffer b e) ++ "\n" := by
  have hsort : Dynaml.sortNat (b :: e :: []) = b :: e :: [] := by
    simp [Dynaml.sortNat, Dynaml.insertNat, Nat.le_of_lt hbe]
  have hscan := Dynaml.scanPositions_pair buffer 0 1 0 b e (Nat.zero_le b) hbe
    (by simpa using hlen)
  simp only [Nat.sub_zero] at hscan
  have hne : ¬(b = e) := Nat.ne_of_lt hbe
  simp [Dynaml.parseErrorMessage, Dynaml.translatePositions, hsort, hscan,
    Dynaml.lookupPosition, List.find?, hne, Dynaml.specLine, Dynaml.specSymbol,
    Dynaml.foldl_stepLineSym_closed]

/-- C6 (witness): the rendered message for a token spanning positions 1-3 of
the buffer `ab\nc` (the line changes across the newline at index 2). -/
theorem C6_witness :
    Dynaml.parseErrorMessage ("ab\nc".data) "Key" 1 3 =
      "\n" ++ "parse error near " ++ "Key" ++
      " (line " ++ toString (Dynaml.specLine ("ab\nc".data) 1) ++
      " symbol " ++ toString (Dynaml.specSymbol ("ab\nc".data) 1) ++
      " - line " ++ toString (Dynaml.specLine ("ab\nc".data) 3) ++
      " symbol " ++ toString (Dynaml.specSymbol ("ab\nc".data) 3) ++
      "):\n" ++ Dynaml.quoteGo (Dynaml.sliceGo ("ab\nc".data) 1 3) ++ "\n" :=
  C6_parse_error_line_symbol ("ab\nc".data) "Key" 1 3 (by decide) (by decide)

namespace Dynaml

end Dynaml

/-! ## C10: base64 round trip of WireGuard keys (`dynaml/wireguard/key.go`) -/

namespace Wireguard

/-- `KeyLen` (`dynaml/wireguard/key.go`): a key is 32 bytes. -/
def KeyLen : Nat := 32

/-- The standard base64 alphabet, digit to character. -/
def base64Char (n : Nat) : Char :=
  if n < 26 then Char.ofNat (65 + n)
  else if n < 52 then Char.ofNat (97 + (n - 26))
  else if n < 62 then Char.ofNat (48 + (n - 52))
  else if n = 62 then '+' else '/'

/-- The standard base64 alphabet, character to digit. -/
def base64Index (c : Char) : Option Nat :=
  if 'A' ≤ c ∧ c ≤ 'Z' then some (c.toNat - 65)
  else if 'a' ≤ c ∧ c ≤ 'z' then some (c.toNat - 97 + 26)
  else if '0' ≤ c ∧ c ≤ '9' then some (c.toNat - 48 + 52)
  else if c = '+' then some 62
  else if c = '/' then some 63
  else none

theorem base64Index_base64Char : ∀ n, n < 64 → base64Index (base64Char n) = some n := by
  decide

theorem base64Char_ne_pad : ∀ n, n < 64 → base64Char n ≠ '=' := by decide

/-- `base64.StdEncoding.EncodeToString`: bytes to base64 with padding. -/
def encodeB64 : List Nat → List Char
  | [] => []
  | a :: [] =>
    base64Char (a / 4) :: base64Char (a % 4 * 16) :: '=' :: '=' :: []
  | a :: b :: [] =>
    base64Char (a / 4) :: base64Char (a % 4 * 16 + b / 16) ::
      base64Char (b % 16 * 4) :: '=' :: []
  | a :: b :: c :: rest =>
    base64Char (a / 4) :: base64Char (a % 4 * 16 + b / 16) ::
      base64Char (b % 16 * 4 + c / 64) :: base64Char (c % 64) :: encodeB64 rest

/-- `base64.StdEncoding.DecodeString` on canonical inputs: four-character
quanta, padding only in the final quantum, failure on any character outside
the alphabet or on a malformed length. -/
def decodeB64 : List Char → Option (List Nat)
  | [] => some []
  | c1 :: c2 :: c3 :: c4 :: rest =>
    match base64Index c1, base64Index c2 with
    | some s1, some s2 =>
      if c3 = '=' then
        if c4 = '=' ∧ rest = [] then some ((s1 * 4 + s2 / 16) :: []) else none
      else
        match base64Index c3 with
        | some s3 =>
          if c4 = '=' then
            if rest = [] then
              some ((s1 * 4 + s2 / 16) :: (s2 % 16 * 16 + s3 / 4) :: [])
            else none
          else
            match base64Index c4 with
            | some s4 =>
              (decodeB64 rest).map
                (fun tl => (s1 * 4 + s2 / 16) :: (s2 % 16 * 16 + s3 / 4) ::
                  (s3 % 4 * 64 + s4) :: tl)
            | none => none
        | none => none
    | _, _ => none
  | _ => none

theorem decodeB64_encodeB64 : ∀ (bytes : List Nat), (∀ x ∈ bytes, x < 256) →
    decodeB64 (encodeB64 bytes) = some bytes
  | [], _ => rfl
  | a :: [], h => by
    have ha : a < 256 := h a (by simp)
    have h1 := base64Index_base64Char (a / 4) (by omega)
    have h2 := base64Index_base64Char (a % 4 * 16) (by omega)
    simp [encodeB64, decodeB64, h1, h2]
    omega
  | a :: b :: [], h => by
    have ha : a < 256 := h a (by simp)
    have hb : b < 256 := h b (by simp)
    have h1 := base64Index_base64Char (a / 4) (by omega)
    have h2 := base64Index_base64Char (a % 4 * 16 + b / 16) (by omega)
    have h3 := base64Index_base64Char (b % 16 * 4) (by omega)
    have hne : base64Char (b % 16 * 4) ≠ '=' := base64Char_ne_pad _ (by omega)
    simp [encodeB64, decodeB64, h1, h2, h3, hne]
    constructor
    · omega
    · omega
  | a :: b :: c :: rest, h => by
    have ha : a < 256 := h a (by simp)
    have hb : b < 256 := h b (by simp)
    have hc : c < 256 := h c (by simp)
    have IH := decodeB64_encodeB64 rest (fun x hx => h x (by simp [hx]))
    have h1 := base64Index_base64Char (a / 4) (by omega)
    have h2 := base64Index_base64Char (a % 4 * 16 + b / 16) (by omega)
    have h3 := base64Index_base64Char (b % 16 * 4 + c / 64) (by omega)
    have h4 := base64Index_base64Char (c % 64) (by omega)
    have hne3 : base64Char (b % 16 * 4 + c / 64) ≠ '=' :=
      base64Char_ne_pad _ (by omega)
    have hne4 : base64Char (c % 64) ≠ '=' := base64Char_ne_pad _ (by omega)
    simp [encodeB64, decodeB64, h1, h2, h3, h4, hne3, hne4, IH]
    refine ⟨?_, ?_, ?_⟩
    · omega
    · omega
    · omega

/-- `NewKey` (`dynaml/wireguard/key.go` lines 50-61): succeeds exactly on
byte slices of length 32. -/
def NewKey (b : List Nat) : Option (List Nat) :=
  if b.length = KeyLen then some b else none

/-- `ParseKey` (`dynaml/wireguard/key.go` lines 63-71): base64-decode, then
`NewKey`. -/
def ParseKey (s : String) : Option (List Nat) := (decodeB64 s.data).bind NewKey

/-- `Key.String` (`dynaml/wireguard/key.go` lines 87-91): the
base64-encoding of the key bytes. -/
def keyString (k : List Nat) : String := String.mk (encodeB64 k)

end Wireguard

/-- C10: for every 32-byte WireGuard key `k`, `ParseKey (k.String())`
succeeds and returns `k`: base64 encoding via `Key.String` followed by
`ParseKey` is the identity on keys. -/
theorem C10_parse_key_string_roundtrip (k : List Nat) (hlen : k.length = 32)
    (hbytes : ∀ x ∈ k, x < 256) :
    Wireguard.ParseKey (Wireguard.keyString k) = some k := by
  have hd := Wireguard.decodeB64_encodeB64 k hbytes
  simp [Wireguard.ParseKey, Wireguard.keyString, hd, Wireguard.NewKey, hlen,
    Wireguard.KeyLen]

/-- C10 (witness): the round trip on the all-zero 32-byte key. -/
theorem C10_witness :
    Wireguard.ParseKey (Wireguard.keyString (List.replicate 32 0)) =
      some (List.replicate 32 0) :=
  C10_parse_key_string_roundtrip (List.replicate 32 0) (by simp)
    (fun x hx => by
      have : x = 0 := (List.eq_of_mem_replicate hx)
      omega)

end Spiff
